import Mathlib

/-!
# Cocaine core: slave supervisor and request multiplexer

A shallow embedding of `src/src/master.cpp` (the per-slave supervisor
`master_t` with its nested states) and of `src/src/core.cpp` (the request
handler, dispatch, push/drop/stat, seal, reload/purge/recover), followed by theorems
about them.

Conventions
* The headers `master.hpp` and `future.hpp` are not among the sources: the
  state set and transition table of the supervisor and the operations of a
  future are modelled from the specification, each marked as such.
* The JSON library, the engines, the signing and the persistence services are
  collaborators outside the repository: JSON values are a tagged tree with the
  library's conversions, the others are parameters (`env_t`).
* Every call the source makes on a collaborator (timer, job, process handle,
  engine, signing, persistence) is appended to a `trace` carried in the state,
  so that "is called", "is called once" and "in this order" are statements
  about that list.
* `float` seconds are rationals: the source only copies and compares them.
-/

namespace cocaine

/-! ## Slave supervisor (`master.cpp`) -/

/-- Error categories carried by `events::error`; the source names
`timeout_error` and `server_error`, slaves may report others. -/
inductive error_code where
  | timeout_error
  | server_error
  | other (n : Nat)
deriving DecidableEq, Repr

/-- The part of `job_t::policy` the supervisor reads. -/
structure policy_t where
  timeout : ℚ
deriving DecidableEq

/-- A job (`job_t`): identity, event name (`job->event`) and policy. -/
structure job_t where
  id : Nat
  event : String
  policy : policy_t
deriving DecidableEq

/-- What `job->process(...)` can be handed. -/
inductive job_event where
  | invoke
  | chunk (data : String)
  | error (code : error_code) (message : String)
  | choke
deriving DecidableEq

/-- Events of the supervisor state machine (`events::*`). -/
inductive event where
  | heartbeat
  | invoke (job : job_t)
  | chunk (data : String)
  | error (code : error_code) (message : String)
  | choke
  | terminate
deriving DecidableEq

/-- Observable calls made by the supervisor, in program order. -/
inductive effect where
  /-- The state machine starts reacting to an event (`process_event`, or a
  posted event taken from the queue). -/
  | event (e : event)
  /-- Call of `m_heartbeat_timer.stop()`. -/
  | timer_stop
  /-- Call of `m_heartbeat_timer.start(t)`. -/
  | timer_start (t : ℚ)
  /-- Call of `job->process(e)`. -/
  | job_process (job : job_t) (e : job_event)
  /-- Call of `m_handle->terminate()`. -/
  | handle_terminate
  /-- Call of `m_handle.reset()`. -/
  | handle_reset
deriving DecidableEq

/-- The two timeouts of `profile_t` the supervisor reads. -/
structure profile_t where
  startup_timeout : ℚ
  heartbeat_timeout : ℚ
deriving DecidableEq

/-- Inner states of `alive`. -/
inductive substate where
  | idle
  | busy
deriving DecidableEq

/-- Modelled from the spec: the state set of the supervisor, declared in
`master.hpp` (not under `src/`): `unknown`, `alive` with inner states `idle`
and `busy`, and `dead`. -/
inductive state where
  | unknown
  | alive (sub : substate)
  | dead
deriving DecidableEq

/-- The supervisor `master_t` together with the `job` member of its `alive`
state (`alive::job`, a shared pointer, `none` when null). -/
structure master_t where
  profile : profile_t
  state : state
  /-- The member `alive::job`. -/
  job : Option job_t
  /-- Whether `m_handle` holds a process handle. -/
  handle : Bool
  /-- Interval the heartbeat timer is armed with, `none` when stopped. -/
  timer : Option ℚ
  trace : List effect
deriving DecidableEq

namespace master_t

/-- Append calls to the trace. -/
def emit (m : master_t) (es : List effect) : master_t :=
  { m with trace := m.trace ++ es }

/-- The job seen through `state_downcast<const busy*>()` followed by
`state->job()`: the `alive::job` member when the machine is in `busy`. -/
def busy_job (m : master_t) : Option job_t :=
  match m.state with
  | .alive .busy => m.job
  | _ => none

/-- Source `master_t::on_heartbeat`: stop the timer, choose the interval, start it. -/
def on_heartbeat (m : master_t) : master_t :=
  let m1 := { m.emit [.timer_stop] with timer := none }
  let timeout : ℚ :=
    match m1.busy_job with
    | some j => if 0 < j.policy.timeout then j.policy.timeout else m1.profile.heartbeat_timeout
    | none => m1.profile.heartbeat_timeout
  { m1.emit [.timer_start timeout] with timer := some timeout }

/-- Source `master_t::on_initialize`: logs and forwards to `on_heartbeat`. -/
def on_initialize (m : master_t) : master_t :=
  on_heartbeat m

/-- Source `master_t::on_terminate`: `m_handle->terminate(); m_handle.reset();`. -/
def on_terminate (m : master_t) : master_t :=
  { m.emit [.handle_terminate, .handle_reset] with handle := false }

/-- The destructor `alive::~alive`: a job still bound is cancelled with
`server_error`, choked and released. -/
def alive_dtor (m : master_t) : master_t :=
  match m.job with
  | some j =>
    { m.emit [.job_process j (.error .server_error "the job is being cancelled"),
              .job_process j .choke] with job := none }
  | none => m

/-- Source `alive::on_invoke`: bind the job, forward the invoke; the caller posts the
heartbeat. -/
def on_invoke (m : master_t) (j : job_t) : master_t :=
  { m with job := some j }.emit [.job_process j .invoke]

/-- Source `alive::on_choke`: forward the choke to the bound job and release it; the
caller posts the heartbeat. -/
def on_choke (m : master_t) : master_t :=
  match m.job with
  | some j => { m.emit [.job_process j .choke] with job := none }
  | none => m

/-- Source `busy::on_chunk`. -/
def on_chunk (m : master_t) (data : String) : master_t :=
  match m.busy_job with
  | some j => m.emit [.job_process j (.chunk data)]
  | none => m

/-- Source `busy::on_error`. -/
def on_error (m : master_t) (code : error_code) (message : String) : master_t :=
  match m.busy_job with
  | some j => m.emit [.job_process j (.error code message)]
  | none => m

/-- Modelled from the spec: the transition table of the supervisor, declared
in `master.hpp` (not under `src/`), section 4.6 of the specification. One
reaction: the new machine and the events posted with `post_event`. A
transition leaves the source state (leaving `alive` runs `alive::~alive`),
runs its action, then enters the target state; pairs not in the table are
ignored. -/
def react (m : master_t) (e : event) : master_t × List event :=
  let m0 := m.emit [.event e]
  match m0.state, e with
  | .unknown, .heartbeat =>
    ({ on_initialize m0 with state := .alive .idle, job := none }, [])
  | .unknown, .terminate =>
    ({ on_terminate m0 with state := .dead }, [])
  | .alive _, .heartbeat => (on_heartbeat m0, [])
  | .alive _, .terminate =>
    ({ on_terminate (alive_dtor m0) with state := .dead }, [])
  | .alive .idle, .invoke j =>
    ({ on_invoke m0 j with state := .alive .busy }, [.heartbeat])
  | .alive .busy, .chunk d => (on_chunk m0 d, [.heartbeat])
  | .alive .busy, .error c msg => (on_error m0 c msg, [.heartbeat])
  | .alive .busy, .choke =>
    ({ on_choke m0 with state := .alive .idle }, [.heartbeat])
  | _, _ => (m0, [])

/-- The framework's `process_event`: react to the event, then to the events that reaction
posted (only heartbeats are ever posted, and reacting to a heartbeat posts
nothing, see `react_heartbeat_posts`). -/
def process_event (m : master_t) (e : event) : master_t :=
  let r := react m e
  r.2.foldl (fun acc ev => (react acc ev).1) r.1

/-- Source `master_t::on_timeout`, the heartbeat timer callback. -/
def on_timeout (m : master_t) : master_t :=
  let m1 :=
    match m.busy_job with
    | some j =>
      m.emit [.job_process j (.error .timeout_error "the job has timed out"),
              .job_process j .choke]
    | none => m
  process_event m1 .terminate

/-- The events handed to job `j`, in order. -/
def delivered (j : job_t) (tr : List effect) : List job_event :=
  tr.filterMap (fun x =>
    match x with
    | .job_process k e => if k = j then some e else none
    | _ => none)

/-- Number of chokes in a list of job events. -/
def chokes (es : List job_event) : Nat :=
  (es.filter (fun e => decide (e = .choke))).length

/-- Number of errors in a list of job events. -/
def errors (es : List job_event) : Nat :=
  (es.filter (fun e => match e with | .error _ _ => true | _ => false)).length

/-- The constructor `master_t::master_t`: the machine is initiated in
`unknown`, the timer is armed with `startup_timeout`, the isolate spawns the
slave and its handle is stored. -/
def create (profile : profile_t) : master_t :=
  { profile := profile, state := .unknown, job := none, handle := true,
    timer := some profile.startup_timeout,
    trace := [.timer_start profile.startup_timeout] }

/-- The binding invariant the source asserts with `BOOST_ASSERT`: a job is
bound exactly in `busy`. -/
def wf (m : master_t) : Prop :=
  match m.state with
  | .alive .busy => m.job.isSome = true
  | _ => m.job = none

instance (m : master_t) : Decidable m.wf := by
  unfold wf; split <;> infer_instance

/-- A profile with a 10 s start-up and a 30 s heartbeat timeout. -/
def sample_profile : profile_t := { startup_timeout := 10, heartbeat_timeout := 30 }

/-- A job whose policy asks for a 5 s timeout. -/
def sample_job : job_t := { id := 1, event := "ping", policy := { timeout := 5 } }

/-- A supervisor in `alive/busy` running `sample_job`. -/
def sample_busy : master_t :=
  { profile := sample_profile, state := .alive .busy, job := some sample_job,
    handle := true, timer := some 5, trace := [] }

/-- A supervisor in `alive/idle`. -/
def sample_idle : master_t :=
  { profile := sample_profile, state := .alive .idle, job := none,
    handle := true, timer := some 30, trace := [] }

end master_t

/-! ## Request multiplexer (`core.cpp`)

The build modelled is the one without `HISTORY_ENABLED`. -/

namespace Json

/-- JSON values as the library's `Json::Value`: a tagged tree. An object
keeps its members as a list of pairs, in the order `getMemberNames` reports
them. -/
inductive Value where
  | null
  | bool (b : Bool)
  | int (i : Int)
  | uint (n : Nat)
  | real (q : ℚ)
  | str (s : String)
  | arr (items : List Value)
  | obj (members : List (String × Value))

namespace Value

/-- Library function `Json::Value::isObject` (the JSON library is outside the
repository), taken as the test for the object tag. The theorems use it only
through its value on the arguments at hand. -/
def isObject : Value → Bool
  | .obj _ => true
  | _ => false

/-- Library function `Json::Value::size`: number of members or items, zero
for scalars. -/
def size : Value → Nat
  | .obj ms => ms.length
  | .arr xs => xs.length
  | _ => 0

/-- Library function `Json::Value::getMemberNames`. -/
def getMemberNames : Value → List String
  | .obj ms => ms.map Prod.fst
  | _ => []

/-- Library function `Json::Value::operator[]` with a string key: the member, or
null when there is none. -/
def index (v : Value) (key : String) : Value :=
  match v with
  | .obj ms => (ms.lookup key).getD .null
  | _ => .null

/-- Library function `Json::Value::get(key, default)`: the member, or the
default when there is none. -/
def get (v : Value) (key : String) (dflt : Value) : Value :=
  match v with
  | .obj ms => (ms.lookup key).getD dflt
  | _ => dflt

/-- Library function `Json::Value::asUInt`: the conversion to the 32-bit
`unsigned int`. Null, booleans, non-negative integers and reals in range
convert; on the other values the library raises an exception derived from
`std::exception`, whose message is kept. -/
def asUInt : Value → Except String Nat
  | .null => .ok 0
  | .bool b => .ok (if b then 1 else 0)
  | .uint n => .ok (n % 4294967296)
  | .int i =>
    if 0 ≤ i then .ok (i.toNat % 4294967296)
    else .error "Negative integer can not be converted to unsigned integer"
  | .real q =>
    if 0 ≤ q ∧ q ≤ 4294967295 then .ok q.floor.toNat
    else .error "Real out of unsigned integer range"
  | _ => .error "Type is not convertible to uint"

/-- Library function `Json::Value::asString`. Null, strings and booleans
convert; on arrays and objects the library raises an exception derived from
`std::exception` with the message below, and the releases of the period do so
on numbers as well. -/
def asString : Value → Except String String
  | .null => .ok ""
  | .str s => .ok s
  | .bool b => .ok (if b then "true" else "false")
  | _ => .error "Type is not convertible to string"

/-- Assignment `object[key] = value` on the member list of an object. -/
def assign (ms : List (String × Value)) (key : String) (value : Value) :
    List (String × Value) :=
  if ms.any (fun p => p.1 == key) then
    ms.map (fun p => if p.1 == key then (key, value) else p)
  else ms ++ [(key, value)]

end Value

end Json

open Json (Value)

/-- Modelled from the spec: the future of `future.hpp` (not under `src/`),
section 3: identity, reply route, expected count, accumulator and metadata. -/
structure future_t where
  id : Nat
  route : List String
  expected : Nat
  /-- The accumulator, `future->root()`. -/
  root : List (String × Value)
  /-- The metadata set with `future->set`. -/
  metadata : List (String × String)

/-- Calls made by the core on the future, on its own handlers and on its
collaborators, in program order. -/
inductive call where
  /-- Call of `security::signing_t::verify(request, signature, token)`. -/
  | verify (payload signature token : String)
  /-- Entry of `core_t::dispatch`. -/
  | dispatch (fid : Nat)
  /-- Call of `future->await(n)`. -/
  | await (fid n : Nat)
  /-- Call of `future->fulfill(part, value)`. -/
  | fulfill (fid : Nat) (part : String) (value : Value)
  /-- Entry of `core_t::push`. -/
  | push (fid : Nat) (target : String) (args : Value)
  /-- Entry of `core_t::drop`. -/
  | drop (fid : Nat) (target : String) (args : Value)
  /-- Entry of `core_t::stat`. -/
  | stat (fid : Nat)
  /-- Evaluation of `new engine_t(m_config, m_context, target)`. -/
  | engine_new (target : String)
  /-- Call of `engine->push(future, args)`. -/
  | engine_push (target : String) (fid : Nat) (args : Value)
  /-- Call of `engine->drop(future, args)`. -/
  | engine_drop (target : String) (fid : Nat) (args : Value)
  /-- Call of `persistance::storage_t::all()`. -/
  | storage_all
  /-- Call of `persistance::storage_t::purge()`. -/
  | storage_purge
  /-- Call of `abort()`. -/
  | abort
  /-- Call of `s_requests.send(message, flags)` with the frame `data`; `more`
  tells whether the flag `ZMQ_SNDMORE` is given. -/
  | send (data : String) (more : Bool)
  /-- Modelled from the spec: call of `s_requests.send_json(root)` of the
  socket wrapper (not under `src/`), section 4.4: it sends the last frame of
  the message, holding the serialization of `root`. -/
  | send_json (root : List (String × Value))

/-- How a handler ends: it returns, an exception derived from
`std::exception` leaves it (`what()` is kept), or the process is aborted. -/
inductive completion where
  | normal
  | raised (what : String)
  | aborted
deriving DecidableEq

/-- Outcome of constructing an engine: it succeeds, raises a
`std::runtime_error`, or raises anything else. -/
inductive ctor_result where
  | ok
  | runtime_error (what : String)
  | other
deriving DecidableEq

/-- The class-level object counters `stat` reads (`objects_created`,
`objects_alive` of engines, threads and futures). -/
structure counters_t where
  engines_created : Nat
  engines_alive : Nat
  threads_created : Nat
  threads_alive : Nat
  futures_created : Nat
  futures_alive : Nat

/-- The collaborators of the core, whose code is outside the repository
sources at hand: what they answer is a parameter. -/
structure env_t where
  /-- Strict-mode `Json::Reader::parse`: the root, or the formatted errors. -/
  parse : String → Except String Value
  /-- The signing collaborator: `some what` when `verify` raises. -/
  verify : String → String → String → Option String
  /-- Outcome of constructing the engine of a target. -/
  engine_new : String → ctor_result
  /-- The engine's `push`: `some what` when it raises. -/
  engine_push : String → Value → Option String
  /-- The engine's `drop`: `some what` when it raises. -/
  engine_drop : String → Value → Option String
  /-- What `persistance::storage_t::all()` returns. -/
  stored : Value
  counters : counters_t

/-- The state of `core_t` the handlers read and write. -/
structure core_t where
  /-- The configured minimum, `m_config.core.protocol`. -/
  protocol : Nat
  /-- The registry `m_futures`, most recent first. -/
  futures : List future_t
  /-- The keys of the registry `m_engines`. -/
  engines : List String
  /-- Supply of future identities. -/
  next_id : Nat
  /-- Futures scheduled for seal. -/
  sealing : List Nat
  trace : List call

namespace core_t

/-- Append calls to the trace. -/
def emit (c : core_t) (cs : List call) : core_t :=
  { c with trace := c.trace ++ cs }

/-- Apply `g` to the first future of the list whose identity is `fid`. -/
def modify_first (fid : Nat) (g : future_t → future_t) : List future_t → List future_t
  | [] => []
  | f :: fs => if f.id = fid then g f :: fs else f :: modify_first fid g fs

/-- The future a pointer obtained for identity `fid` designates. -/
def find_future (c : core_t) (fid : Nat) : Option future_t :=
  c.futures.find? (fun f => decide (f.id = fid))

/-- Modelled from the spec: `new future_t(this, route)` followed by
`m_futures.insert(future->id(), future)`; `future.hpp` is not under `src/`.
The identity is fresh; a new future awaits one part, since the request
handler seals it by fulfilling the single part `error` (section 4.2). -/
def new_future (c : core_t) (route : List String) : core_t × Nat :=
  ({ c with
      futures := { id := c.next_id, route := route, expected := 1, root := [],
                   metadata := [] } :: c.futures,
      next_id := c.next_id + 1 }, c.next_id)

/-- Modelled from the spec: `future->set(key, value)` of `future.hpp` (not
under `src/`), which records one metadata entry. -/
def set (c : core_t) (fid : Nat) (key value : String) : core_t :=
  let g : future_t → future_t := fun f =>
    { f with metadata := f.metadata.filter (fun p => p.1 != key) ++ [(key, value)] }
  { c with futures := modify_first fid g c.futures }

/-- Modelled from the spec: `future->await(n)` of `future.hpp` (not under
`src/`), section 4.4: it sets the expected count. -/
def await (c : core_t) (fid n : Nat) : core_t :=
  let g : future_t → future_t := fun f => { f with expected := n }
  emit { c with futures := modify_first fid g c.futures } [.await fid n]

/-- Modelled from the spec: `future->fulfill(part, value)` of `future.hpp`
(not under `src/`), section 4.4: it inserts one entry into the accumulator
and, when the accumulator size equals the expected count, schedules the
future for seal. -/
def fulfill (c : core_t) (fid : Nat) (part : String) (value : Value) : core_t :=
  let g : future_t → future_t := fun f => { f with root := Value.assign f.root part value }
  let c1 := { c with futures := modify_first fid g c.futures }
  let c2 :=
    match c1.find_future fid with
    | some f => if f.root.length = f.expected then { c1 with sealing := c1.sealing ++ [fid] } else c1
    | none => c1
  c2.emit [.fulfill fid part value]

/-- The response object `{"error": what}` the per-target handlers build. -/
def error_response (what : String) : Value :=
  .obj [("error", .str what)]

/-- The tail of `core_t::push` and of `core_t::drop`: the call on the engine,
which may raise. -/
def engine_call (c : core_t) (event : call) (raises : Option String) : core_t × completion :=
  (c.emit [event],
    match raises with
    | none => .normal
    | some what => .raised what)

/-- Source `core_t::push`. -/
def push (env : env_t) (c : core_t) (fid : Nat) (target : String) (args : Value) :
    core_t × completion :=
  let c0 := c.emit [.push fid target args]
  if c0.engines.contains target then
    engine_call c0 (.engine_push target fid args) (env.engine_push target args)
  else
    let c1 := c0.emit [.engine_new target]
    match env.engine_new target with
    | .ok =>
      engine_call { c1 with engines := c1.engines ++ [target] }
        (.engine_push target fid args) (env.engine_push target args)
    | .runtime_error what => (fulfill c1 fid target (error_response what), .normal)
    | .other => (c1.emit [.abort], .aborted)

/-- Source `core_t::drop`. -/
def drop (env : env_t) (c : core_t) (fid : Nat) (target : String) (args : Value) :
    core_t × completion :=
  let c0 := c.emit [.drop fid target args]
  if c0.engines.contains target then
    engine_call c0 (.engine_drop target fid args) (env.engine_drop target args)
  else
    (fulfill c0 fid target (error_response "engine not found"), .normal)

/-- One value of the `engines` part of `core_t::stat`: the `list` member is
created by the first `append` only. -/
def stat_engines (env : env_t) (c : core_t) : Value :=
  let listed : List (String × Value) :=
    if c.engines.isEmpty then [] else [("list", .arr (c.engines.map Value.str))]
  .obj (Value.assign (Value.assign listed "total" (.uint env.counters.engines_created))
    "alive" (.uint env.counters.engines_alive))

/-- Source `core_t::stat`. -/
def stat (env : env_t) (c : core_t) (fid : Nat) : core_t :=
  let c0 := await (c.emit [.stat fid]) fid 3
  let c1 := fulfill c0 fid "engines" (stat_engines env c0)
  let c2 := fulfill c1 fid "threads"
    (.obj [("total", .uint env.counters.threads_created),
           ("alive", .uint env.counters.threads_alive)])
  fulfill c2 fid "requests"
    (.obj [("total", .uint env.counters.futures_created),
           ("pending", .uint env.counters.futures_alive)])

/-- The loop of `core_t::dispatch` over the target names. -/
def dispatch_loop (env : env_t) (action : String) (targets : Value) (fid : Nat) :
    List String → core_t → core_t × completion
  | [], c => (c, .normal)
  | target :: rest, c =>
    let args := targets.index target
    if !args.isObject then
      dispatch_loop env action targets fid rest
        (fulfill c fid target (error_response "target arguments expected"))
    else
      let r :=
        if action = "push" then push env c fid target args
        else if action = "drop" then drop env c fid target args
        else (c, .normal)
      match r.2 with
      | .normal => dispatch_loop env action targets fid rest r.1
      | _ => r

/-- Source `core_t::dispatch`. -/
def dispatch (env : env_t) (c : core_t) (fid : Nat) (root : Value) : core_t × completion :=
  let c0 := c.emit [.dispatch fid]
  match (root.get "action" (.str "push")).asString with
  | .error what => (c0, .raised what)
  | .ok action =>
    if action = "push" ∨ action = "drop" then
      let targets := root.index "targets"
      if !targets.isObject || targets.size = 0 then
        (c0, .raised "no targets specified")
      else
        let names := targets.getMemberNames
        dispatch_loop env action targets fid names (await c0 fid names.length)
    else if action = "stats" then
      (stat env c0 fid, .normal)
    else
      (c0, .raised "unsupported action")

/-- The `try` block of `core_t::request`. -/
def request_try (env : env_t) (c : core_t) (fid : Nat) (root : Value)
    (payload signature : String) : core_t × completion :=
  if !root.isObject then (c, .raised "object expected")
  else
    match (root.get "version" (.int 1)).asUInt with
    | .error what => (c, .raised what)
    | .ok version =>
      match (root.get "token" (.str "")).asString with
      | .error what => (c, .raised what)
      | .ok token =>
        if c.protocol ≤ version then
          let c1 := set c fid "protocol" (toString version)
          if token ≠ "" then
            let c2 := set c1 fid "token" token
            if 2 < version then
              let c3 := c2.emit [.verify payload signature token]
              match env.verify payload signature token with
              | some what => (c3, .raised what)
              | none => dispatch env c3 fid root
            else dispatch env c2 fid root
          else (c1, .raised "security token expected")
        else (c, .raised "outdated protocol version")

/-- One turn of the loop of `core_t::request`: the message with identity
frames `route`, request frame `payload` and signature frame `signature`
(empty when there is none). -/
def request (env : env_t) (c : core_t) (route : List String) (payload signature : String) :
    core_t × completion :=
  let nf := new_future c route
  match env.parse payload with
  | .error messages => (fulfill nf.1 nf.2 "error" (.str messages), .normal)
  | .ok root =>
    let r := request_try env nf.1 nf.2 root payload signature
    match r.2 with
    | .raised what => (fulfill r.1 nf.2 "error" (.str what), .normal)
    | _ => r

/-- The loop of `core_t::recover` over the stored task identifiers. -/
def recover_loop (env : env_t) (root : Value) (fid : Nat) :
    List String → core_t → core_t × completion
  | [], c => (c, .normal)
  | id :: rest, c =>
    let object := root.index id
    match (object.index "token").asString with
    | .error what => (c, .raised what)
    | .ok token =>
      match (object.index "url").asString with
      | .error what => (set c fid "token" token, .raised what)
      | .ok url =>
        let r := push env (set c fid "token" token) fid url (object.index "args")
        match r.2 with
        | .normal => recover_loop env root fid rest r.1
        | _ => r

/-- Source `core_t::recover`. -/
def recover (env : env_t) (c : core_t) : core_t × completion :=
  let c0 := c.emit [.storage_all]
  let root := env.stored
  if root.size ≠ 0 then
    let nf := new_future c0 []
    recover_loop env root nf.2 root.getMemberNames (await nf.1 nf.2 root.size)
  else (c0, .normal)

/-- Source `core_t::reload`, the hangup handler. -/
def reload (env : env_t) (c : core_t) : core_t × completion :=
  recover env { c with futures := [], engines := [] }

/-- Source `core_t::purge`, the handler of the first user signal. -/
def purge (c : core_t) : core_t :=
  { c with futures := [], engines := [] }.emit [.storage_purge]

/-- Remove the first future of the list whose identity is `fid`:
`m_futures.erase(it)` for the iterator `find` returned. -/
def erase_first (fid : Nat) : List future_t → List future_t
  | [] => []
  | f :: fs => if f.id = fid then fs else f :: erase_first fid fs

/-- The calls made since the trace had length `n`. -/
def since (n : Nat) (c : core_t) : List call :=
  c.trace.drop n

/-- The accumulator of the future with identity `fid`, when registered. -/
def accumulator (c : core_t) (fid : Nat) : Option (List (String × Value)) :=
  (c.find_future fid).map (fun f => f.root)

/-- The expected count of the future with identity `fid`, when registered. -/
def expected (c : core_t) (fid : Nat) : Option Nat :=
  (c.find_future fid).map (fun f => f.expected)

end core_t

/-- Source `core_t::seal`: an unknown identity is logged and dropped; otherwise
the response is sent along a non-empty route (identity frames, delimiter,
serialized accumulator) and the future is released. -/
def core_t.seal (c : core_t) (fid : Nat) : core_t :=
  match c.find_future fid with
  | none => c
  | some f =>
    let c1 :=
      if f.route ≠ [] then
        c.emit (f.route.map (fun id => call.send id true) ++
          [.send "" true, .send_json f.root])
      else c
    { c1 with futures := core_t.erase_first fid c1.futures }

/-! ## Sample collaborators and states -/

namespace core_t

/-- Collaborators that parse every payload to `root`, accept every signature,
start and run every engine, and hold the stored tasks `stored`. -/
def sample_env (root stored : Value) : env_t :=
  { parse := fun _ => .ok root,
    verify := fun _ _ _ => none,
    engine_new := fun _ => .ok,
    engine_push := fun _ _ => none,
    engine_drop := fun _ _ => none,
    stored := stored,
    counters := { engines_created := 0, engines_alive := 0, threads_created := 0,
                  threads_alive := 0, futures_created := 0, futures_alive := 0 } }

/-- A core with empty registries and minimum protocol version 2. -/
def sample_core : core_t :=
  { protocol := 2, futures := [], engines := [], next_id := 0, sealing := [], trace := [] }

/-- A request of version 0 whose token is an object. Here and below the
members of an object are listed in key order, as the library reports them. -/
def sample_bad_token : Value :=
  .obj [("token", .obj []), ("version", .uint 0)]

/-- A request with a token whose version is the negative integer -1. -/
def sample_negative_version : Value :=
  .obj [("token", .str "T"), ("version", .int (-1))]

/-- A request of version 0 with a token (scenario S3). -/
def sample_old : Value :=
  .obj [("token", .str "T"), ("version", .uint 0)]

/-- A request of version 3 with an empty token (scenario S4). -/
def sample_no_token : Value :=
  .obj [("token", .str ""), ("version", .uint 3)]

/-- A request of version 2 that asks for the statistics. -/
def sample_stats : Value :=
  .obj [("action", .str "stats"), ("token", .str "T"), ("version", .uint 2)]

/-- A drop of the target `nope` (scenario S6). -/
def sample_drop : Value :=
  .obj [("action", .str "drop"), ("targets", .obj [("nope", .obj [])]),
        ("token", .str "T"), ("version", .uint 3)]

/-- A push to the single target `app`, with object arguments. -/
def sample_start : Value :=
  .obj [("targets", .obj [("app", .obj [])]), ("token", .str "T"), ("version", .uint 2)]

/-- Collaborators as `sample_env`, except that every signature is refused
with the message "invalid signature". -/
def sample_env_refusing (root : Value) : env_t :=
  { sample_env root .null with verify := fun _ _ _ => some "invalid signature" }

/-- A push whose first target `app` has arguments that are not an object and
whose second target `bad` has object arguments. -/
def sample_mixed : Value :=
  .obj [("targets", .obj [("app", .uint 7), ("bad", .obj [])]),
        ("token", .str "T"), ("version", .uint 2)]

/-- A request with an action the core does not know. -/
def sample_unknown_action : Value :=
  .obj [("action", .str "restart"), ("token", .str "T"), ("version", .uint 2)]

/-- Collaborators as `sample_env`, except that the construction of every
engine raises a `std::runtime_error` with the message "cannot start". -/
def sample_env_failing (root : Value) : env_t :=
  { sample_env root .null with engine_new := fun _ => .runtime_error "cannot start" }

/-- Collaborators as `sample_env`, except that the construction of every
engine raises something that is not a `std::runtime_error`. -/
def sample_env_aborting (root : Value) : env_t :=
  { sample_env root .null with engine_new := fun _ => .other }

/-- Collaborators as `sample_env`, except that the engine's `push` raises
with the message "engine failure". -/
def sample_env_raising (root : Value) : env_t :=
  { sample_env root .null with engine_push := fun _ _ => some "engine failure" }

/-- A future with a two-frame route and one part. -/
def sample_future : future_t :=
  { id := 4, route := ["client", "hop"], expected := 1,
    root := [("app", .str "done")], metadata := [("token", "T")] }

/-- A recovery future: empty route. -/
def sample_recovery_future : future_t :=
  { id := 5, route := [], expected := 1, root := [("app", .str "done")], metadata := [] }

/-- A core whose registry holds the two sample futures. -/
def sample_sealing_core : core_t :=
  { protocol := 2, futures := [sample_recovery_future, sample_future], engines := ["app"],
    next_id := 6, sealing := [4, 5], trace := [] }

/-- One stored task: token `T`, url `app`, empty arguments. -/
def sample_stored : Value :=
  .obj [("task", .obj [("args", .obj []), ("token", .str "T"), ("url", .str "app")])]

end core_t

/-! ## Vocabulary of the statements -/

namespace core_t

/-- A call `dispatch` and its handlers may make: never a signature check, and
every part they fulfill carries an object. -/
def dispatch_call : call → Prop
  | .verify _ _ _ => False
  | .fulfill _ _ v => v.isObject = true
  | _ => True

/-- A call other than the fulfilment of a part with a bare string, which is
what only the `catch` and parse-failure branches of `request` make. -/
def plain_call : call → Prop
  | .fulfill _ _ (.str _) => False
  | _ => True

/-- The step from `c` to `d` only appended calls, each satisfying `P`. -/
def appends (P : call → Prop) (c d : core_t) : Prop :=
  ∃ l, d.trace = c.trace ++ l ∧ ∀ x ∈ l, P x

/-- No collaborator raises with the message `msg`. -/
def never_raises (env : env_t) (msg : String) : Prop :=
  (∀ p s t, env.verify p s t ≠ some msg) ∧
  (∀ t a, env.engine_push t a ≠ some msg) ∧
  (∀ t a, env.engine_drop t a ≠ some msg)

/-- The calls made on an engine (construction included) among the calls. -/
def engine_calls (l : List call) : List call :=
  l.filter (fun x =>
    match x with
    | .engine_new _ => true
    | .engine_push _ _ _ => true
    | .engine_drop _ _ _ => true
    | _ => false)

/-- The future `f` with the parts `ps` added at the end of its accumulator. -/
def with_parts (f : future_t) (ps : List (String × Value)) : future_t :=
  { f with root := f.root ++ ps }

/-- A frame put on the request socket: raw bytes, or the serialization of an
accumulator. -/
inductive frame where
  | bytes (data : String)
  | json (root : List (String × Value))

/-- The frame a call puts on the request socket, with its `ZMQ_SNDMORE`
flag. -/
def sent_frame : call → Option (frame × Bool)
  | .send data more => some (.bytes data, more)
  | .send_json root => some (.json root, false)
  | _ => none

/-- Group frames into multipart messages: a message ends with the first frame
sent without `ZMQ_SNDMORE`; `cur` holds the frames of the message under way. -/
def group_frames : List (frame × Bool) → List frame → List (List frame)
  | [], [] => []
  | [], f :: fs => [f :: fs]
  | (f, true) :: rest, cur => group_frames rest (cur ++ [f])
  | (f, false) :: rest, cur => (cur ++ [f]) :: group_frames rest []

/-- The multipart messages a list of calls puts on the request socket. -/
def messages (l : List call) : List (List frame) :=
  group_frames (l.filterMap sent_frame) []

/-- The accumulator that results from `acc` when the parts fulfilled on the
future `fid` among the calls `l` are assigned in order. -/
def replay (fid : Nat) : List call → List (String × Value) → List (String × Value)
  | [], acc => acc
  | .fulfill f part v :: rest, acc =>
    if f = fid then replay fid rest (Value.assign acc part v) else replay fid rest acc
  | _ :: rest, acc => replay fid rest acc

/-- The step from `c` to `d` only appended calls, and the accumulator of the
future `fid` changed as the parts fulfilled among them say. -/
def tracks (fid : Nat) (c d : core_t) : Prop :=
  ∃ l, d.trace = c.trace ++ l ∧
    d.accumulator fid = (c.accumulator fid).map (replay fid l)

/-- The parts fulfilled among the calls. -/
def parts (l : List call) : List call :=
  l.filter (fun x =>
    match x with
    | .fulfill _ _ _ => true
    | _ => false)

/-- The identities of the registry are pairwise distinct, as the keys of the
map `m_futures` are. -/
def distinct_ids (c : core_t) : Prop :=
  (c.futures.map (fun f => f.id)).Nodup

instance (c : core_t) : Decidable c.distinct_ids := by
  unfold distinct_ids; infer_instance

end core_t

/-! ## Theorems: slave supervisor -/

namespace master_t

/-- Reacting to a heartbeat posts no further event. -/
theorem react_heartbeat_posts (m : master_t) : (react m .heartbeat).2 = [] := by
  unfold react
  simp only [emit]
  split <;> simp_all

/-- Every posted event is a heartbeat. -/
theorem react_posts_heartbeats (m : master_t) (e ev : event) (h : ev ∈ (react m e).2) :
    ev = .heartbeat := by
  unfold react at h
  simp only [emit] at h
  split at h <;> simp_all

/-- The binding invariant holds after construction. -/
theorem wf_create (p : profile_t) : (create p).wf := by
  simp [create, wf]

/-- One reaction keeps the binding invariant. -/
theorem wf_react (m : master_t) (e : event) (h : m.wf) : (react m e).1.wf := by
  rcases m with ⟨p, st, job, hd, tm, tr⟩
  rcases st with _ | sub | _ <;> try rcases sub with _ | _
  all_goals
    cases e <;> cases job <;>
      simp_all [react, wf, on_initialize, on_heartbeat, on_terminate, alive_dtor, on_invoke,
        on_choke, on_chunk, on_error, busy_job, emit]

/-- Draining posted events keeps the binding invariant. -/
theorem wf_drain (q : List event) (m : master_t) (h : m.wf) :
    (q.foldl (fun acc ev => (react acc ev).1) m).wf := by
  induction q generalizing m with
  | nil => simpa using h
  | cons ev q ih => simpa using ih _ (wf_react m ev h)

/-- Processing an event keeps the binding invariant. -/
theorem wf_process_event (m : master_t) (e : event) (h : m.wf) : (process_event m e).wf :=
  wf_drain _ _ (wf_react m e h)

/-- Normal completion: a choke from the slave hands the bound job exactly one
choke, releases the binding and re-arms the timer for the idle state. -/
theorem choke_releases_job (m : master_t) (j : job_t) (hs : m.state = .alive .busy)
    (hj : m.job = some j) :
    (process_event m .choke).trace = m.trace ++
        [.event .choke, .job_process j .choke, .event .heartbeat, .timer_stop,
         .timer_start m.profile.heartbeat_timeout] ∧
      (process_event m .choke).job = none ∧
      (process_event m .choke).state = .alive .idle := by
  rcases m with ⟨p, st, job, hd, tm, tr⟩
  simp only at hs hj
  subst hs hj
  simp [process_event, react, on_choke, on_heartbeat, busy_job, emit]

/-- Cancellation: a terminate that reaches a busy supervisor hands the bound
job one `server_error` and one choke, then reaps the slave. -/
theorem terminate_cancels_job (m : master_t) (j : job_t) (hs : m.state = .alive .busy)
    (hj : m.job = some j) :
    (process_event m .terminate).trace = m.trace ++
        [.event .terminate,
         .job_process j (.error .server_error "the job is being cancelled"),
         .job_process j .choke, .handle_terminate, .handle_reset] ∧
      (process_event m .terminate).job = none ∧
      (process_event m .terminate).state = .dead := by
  rcases m with ⟨p, st, job, hd, tm, tr⟩
  simp only at hs hj
  subst hs hj
  simp [process_event, react, on_terminate, alive_dtor, emit]

/-- C1, at the failing input: when the timer fires on the busy supervisor
`sample_busy`, `on_timeout` hands the bound job a timeout error and a choke,
and the terminate transition it then triggers leaves `alive` with the job still
bound, so that `alive::~alive` hands the same job a second error and a second
choke: two chokes and two errors in total, not one. -/
theorem on_timeout_busy_chokes_twice :
    delivered sample_job (on_timeout sample_busy).trace =
        [.error .timeout_error "the job has timed out", .choke,
         .error .server_error "the job is being cancelled", .choke] ∧
      chokes (delivered sample_job (on_timeout sample_busy).trace) = 2 ∧
      errors (delivered sample_job (on_timeout sample_busy).trace) = 2 := by
  decide

/-- C3: an alive supervisor that receives a heartbeat stops the heartbeat
timer and restarts it, and nothing else: with the job's policy timeout when it
is busy and that timeout is positive, with `profile.heartbeat_timeout` when it
is busy with a policy timeout that is not positive, and with
`profile.heartbeat_timeout` when it is idle. The state and the binding are
unchanged. -/
theorem heartbeat_rearms_timer (m : master_t) (sub : substate) (h : m.state = .alive sub) :
    (∀ j, sub = .busy → m.job = some j → 0 < j.policy.timeout →
      (process_event m .heartbeat).trace =
          m.trace ++ [.event .heartbeat, .timer_stop, .timer_start j.policy.timeout] ∧
        (process_event m .heartbeat).timer = some j.policy.timeout) ∧
    (∀ j, sub = .busy → m.job = some j → ¬ 0 < j.policy.timeout →
      (process_event m .heartbeat).trace =
          m.trace ++ [.event .heartbeat, .timer_stop, .timer_start m.profile.heartbeat_timeout] ∧
        (process_event m .heartbeat).timer = some m.profile.heartbeat_timeout) ∧
    (sub = .idle →
      (process_event m .heartbeat).trace =
          m.trace ++ [.event .heartbeat, .timer_stop, .timer_start m.profile.heartbeat_timeout] ∧
        (process_event m .heartbeat).timer = some m.profile.heartbeat_timeout) ∧
    (process_event m .heartbeat).state = m.state ∧
    (process_event m .heartbeat).job = m.job := by
  rcases m with ⟨p, st, job, hd, tm, tr⟩
  subst h
  cases sub <;> cases job <;>
    simp [process_event, react, on_heartbeat, busy_job, emit]
  exact ⟨fun h1 h2 => absurd h1 (not_lt.mpr h2), fun h2 h1 => absurd h1 (not_lt.mpr h2)⟩

/-- C3, at concrete inputs: the busy sample supervisor (policy timeout 5,
heartbeat timeout 30) is re-armed with 5, the idle one with 30. -/
theorem heartbeat_rearms_timer_witness :
    sample_busy.state = .alive .busy ∧
      (process_event sample_busy .heartbeat).timer = some 5 ∧
      (process_event sample_idle .heartbeat).timer = some 30 :=
  ⟨rfl,
   ((heartbeat_rearms_timer sample_busy .busy rfl).1 sample_job rfl rfl (by decide)).2,
   ((heartbeat_rearms_timer sample_idle .idle rfl).2.2.1 rfl).2⟩

/-- C4 as stated fails: the busy sample supervisor has
`profile.heartbeat_timeout = 30` and a job with policy timeout 5; after an
inbound chunk the watchdog is armed with 5, which is neither the maximum of
the two (30) nor at least `profile.heartbeat_timeout`. -/
theorem watchdog_not_max_counterexample :
    (process_event sample_busy (.chunk "data")).timer = some 5 ∧
      (process_event sample_busy (.chunk "data")).timer ≠
        some (max sample_busy.profile.heartbeat_timeout sample_job.policy.timeout) ∧
      (5 : ℚ) < sample_busy.profile.heartbeat_timeout := by
  decide

/-- C4, amended: for a busy supervisor with job `j`, after an inbound
heartbeat, chunk or error the watchdog is armed with `j`'s policy timeout when
that is positive and with `profile.heartbeat_timeout` otherwise. With a
positive `profile.heartbeat_timeout`, this interval is
`max(profile.heartbeat_timeout, policy timeout)` exactly when the policy
timeout is not strictly between 0 and `profile.heartbeat_timeout`. -/
theorem watchdog_interval_busy (m : master_t) (j : job_t) (e : event)
    (hs : m.state = .alive .busy) (hj : m.job = some j)
    (he : e = .heartbeat ∨ (∃ d, e = .chunk d) ∨ (∃ c msg, e = .error c msg)) :
    (process_event m e).state = .alive .busy ∧
    (process_event m e).timer =
      some (if 0 < j.policy.timeout then j.policy.timeout else m.profile.heartbeat_timeout) ∧
    (0 < m.profile.heartbeat_timeout →
      ((if 0 < j.policy.timeout then j.policy.timeout else m.profile.heartbeat_timeout) =
          max m.profile.heartbeat_timeout j.policy.timeout ↔
        ¬ (0 < j.policy.timeout ∧ j.policy.timeout < m.profile.heartbeat_timeout))) := by
  rcases m with ⟨p, st, job, hd, tm, tr⟩
  simp only at hs hj
  subst hs hj
  refine ⟨?_, ?_, ?_⟩
  · rcases he with rfl | ⟨d, rfl⟩ | ⟨c, msg, rfl⟩ <;>
      simp [process_event, react, on_heartbeat, on_chunk, on_error, busy_job, emit]
  · rcases he with rfl | ⟨d, rfl⟩ | ⟨c, msg, rfl⟩ <;>
      simp [process_event, react, on_heartbeat, on_chunk, on_error, busy_job, emit]
  · intro hpos
    simp only
    by_cases h0 : 0 < j.policy.timeout
    · simp only [h0, if_true, true_and, not_lt]
      constructor
      · intro hmax
        rw [hmax]
        exact le_max_left _ _
      · intro hle
        exact (max_eq_right hle).symm
    · simp only [h0, if_false, false_and, not_false_eq_true, iff_true]
      have : j.policy.timeout ≤ p.heartbeat_timeout := le_trans (not_lt.mp h0) hpos.le
      exact (max_eq_left this).symm

/-- C4 amended, at a concrete input: the busy sample supervisor after a chunk
is armed with its job's timeout 5. -/
theorem watchdog_interval_busy_witness :
    sample_busy.state = .alive .busy ∧ sample_busy.job = some sample_job ∧
      (process_event sample_busy (.chunk "data")).timer = some 5 :=
  ⟨rfl, rfl,
   (watchdog_interval_busy sample_busy sample_job (.chunk "data") rfl rfl
      (Or.inr (Or.inl ⟨"data", rfl⟩))).2.1⟩

/-- What the heartbeat timer callback does on an alive supervisor that
satisfies the binding invariant. Busy with job `j`: `on_timeout` hands `j` the error
`(timeout_error, "the job has timed out")`, then a choke, then gives
`terminate` to the machine; leaving `alive` with `j` still bound runs the
cancellation of `alive::~alive` before the terminate handler. Idle: only
`terminate` is processed and no job is handed anything. In both cases the
terminate handler calls `terminate` on the process handle and resets it, and
the supervisor ends in `dead`. -/
theorem on_timeout_order (m : master_t) (hwf : m.wf) :
    (∀ j, m.state = .alive .busy → m.job = some j →
      (on_timeout m).trace = m.trace ++
        [.job_process j (.error .timeout_error "the job has timed out"),
         .job_process j .choke,
         .event .terminate,
         .job_process j (.error .server_error "the job is being cancelled"),
         .job_process j .choke,
         .handle_terminate, .handle_reset] ∧
      (on_timeout m).state = .dead ∧ (on_timeout m).handle = false) ∧
    (m.state = .alive .idle →
      (on_timeout m).trace = m.trace ++ [.event .terminate, .handle_terminate, .handle_reset] ∧
      (∀ j, delivered j (on_timeout m).trace = delivered j m.trace) ∧
      (on_timeout m).state = .dead ∧ (on_timeout m).handle = false) := by
  rcases m with ⟨p, st, job, hd, tm, tr⟩
  refine ⟨?_, ?_⟩
  · intro j hs hj
    simp only at hs hj
    subst hs hj
    simp [on_timeout, process_event, react, on_terminate, alive_dtor, busy_job, emit]
  · intro hs
    simp only at hs
    subst hs
    have hjob : job = none := by simpa [wf] using hwf
    subst hjob
    simp [on_timeout, process_event, react, on_terminate, alive_dtor, busy_job, emit, delivered,
      List.filterMap_append]

/-- The busy and the idle sample supervisors both end in `dead` with the
handle released. -/
theorem on_timeout_order_witness :
    sample_busy.wf ∧ sample_idle.wf ∧
      (on_timeout sample_busy).state = .dead ∧ (on_timeout sample_idle).handle = false :=
  ⟨by decide, by decide,
   ((on_timeout_order sample_busy (by decide)).1 sample_job rfl rfl).2.1,
   ((on_timeout_order sample_idle (by decide)).2 rfl).2.2.2⟩

/-- C5, at the failing input: when the timer fires on the busy supervisor
`sample_busy`, the events delivered are not only the timeout error and the
choke to the job followed by terminate to the supervisor. While the terminate
transition leaves `alive`, the job, still bound, is handed a second error
(`server_error`) and a second choke before the terminate handler reaps the
slave. The supervisor does end in `dead` with the handle terminated and
released. -/
theorem on_timeout_busy_delivers_more :
    (on_timeout sample_busy).trace =
        [.job_process sample_job (.error .timeout_error "the job has timed out"),
         .job_process sample_job .choke,
         .event .terminate,
         .job_process sample_job (.error .server_error "the job is being cancelled"),
         .job_process sample_job .choke,
         .handle_terminate, .handle_reset] ∧
      delivered sample_job (on_timeout sample_busy).trace ≠
        [.error .timeout_error "the job has timed out", .choke] ∧
      (on_timeout sample_busy).state = .dead ∧
      (on_timeout sample_busy).handle = false := by
  decide

end master_t

/-! ## Theorems: request multiplexer -/

namespace core_t

open Json

theorem appends_refl (P : call → Prop) (c : core_t) : appends P c c :=
  ⟨[], by simp, by simp⟩

theorem appends_trans {P : call → Prop} {c d e : core_t} (h1 : appends P c d)
    (h2 : appends P d e) : appends P c e := by
  obtain ⟨l1, e1, p1⟩ := h1
  obtain ⟨l2, e2, p2⟩ := h2
  refine ⟨l1 ++ l2, by rw [e2, e1, List.append_assoc], ?_⟩
  intro x hx
  rcases List.mem_append.mp hx with hx | hx
  · exact p1 x hx
  · exact p2 x hx

theorem appends_emit {P : call → Prop} (c : core_t) (l : List call) (h : ∀ x ∈ l, P x) :
    appends P c (c.emit l) :=
  ⟨l, rfl, h⟩

theorem appends_since {P : call → Prop} {c d : core_t} (h : appends P c d) :
    ∀ x ∈ since c.trace.length d, P x := by
  obtain ⟨l, e, p⟩ := h
  simpa [since, e] using p

@[simp]
theorem emit_trace (c : core_t) (l : List call) : (c.emit l).trace = c.trace ++ l := rfl
@[simp]
theorem emit_futures (c : core_t) (l : List call) : (c.emit l).futures = c.futures := rfl
@[simp]
theorem emit_engines (c : core_t) (l : List call) : (c.emit l).engines = c.engines := rfl
@[simp]
theorem emit_protocol (c : core_t) (l : List call) : (c.emit l).protocol = c.protocol := rfl
@[simp]
theorem emit_sealing (c : core_t) (l : List call) : (c.emit l).sealing = c.sealing := rfl
@[simp]
theorem emit_next_id (c : core_t) (l : List call) : (c.emit l).next_id = c.next_id := rfl

@[simp]
theorem set_trace (c : core_t) (fid : Nat) (k v : String) :
    (set c fid k v).trace = c.trace := rfl
@[simp]
theorem set_engines (c : core_t) (fid : Nat) (k v : String) :
    (set c fid k v).engines = c.engines := rfl
@[simp]
theorem set_protocol (c : core_t) (fid : Nat) (k v : String) :
    (set c fid k v).protocol = c.protocol := rfl
@[simp]
theorem set_sealing (c : core_t) (fid : Nat) (k v : String) :
    (set c fid k v).sealing = c.sealing := rfl

@[simp]
theorem await_trace (c : core_t) (fid n : Nat) :
    (await c fid n).trace = c.trace ++ [.await fid n] := rfl
@[simp]
theorem await_engines (c : core_t) (fid n : Nat) :
    (await c fid n).engines = c.engines := rfl
@[simp]
theorem await_sealing (c : core_t) (fid n : Nat) :
    (await c fid n).sealing = c.sealing := rfl

@[simp]
theorem fulfill_trace (c : core_t) (fid : Nat) (part : String) (v : Value) :
    (fulfill c fid part v).trace = c.trace ++ [.fulfill fid part v] := by
  unfold fulfill
  simp only
  split
  · split <;> rfl
  · rfl

@[simp]
theorem fulfill_engines (c : core_t) (fid : Nat) (part : String) (v : Value) :
    (fulfill c fid part v).engines = c.engines := by
  unfold fulfill
  simp only
  split
  · split <;> rfl
  · rfl

@[simp]
theorem fulfill_futures (c : core_t) (fid : Nat) (part : String) (v : Value) :
    (fulfill c fid part v).futures =
      modify_first fid (fun f => { f with root := Value.assign f.root part v }) c.futures := by
  unfold fulfill
  simp only
  split
  · split <;> rfl
  · rfl

/-- The only message `asString` raises with. -/
theorem asString_error (v : Value) (w : String) (h : v.asString = .error w) :
    w = "Type is not convertible to string" := by
  cases v <;> simp_all [Value.asString]

/-- The only messages `asUInt` raises with. -/
theorem asUInt_error (v : Value) (w : String) (h : v.asUInt = .error w) :
    w = "Negative integer can not be converted to unsigned integer" ∨
      w = "Real out of unsigned integer range" ∨ w = "Type is not convertible to uint" := by
  cases v with
  | int i =>
    simp only [Value.asUInt] at h
    split at h
    · cases h
    · simp only [Except.error.injEq] at h
      exact Or.inl h.symm
  | real q =>
    simp only [Value.asUInt] at h
    split at h
    · cases h
    · simp only [Except.error.injEq] at h
      exact Or.inr (Or.inl h.symm)
  | null => simp [Value.asUInt] at h
  | bool b => simp [Value.asUInt] at h
  | uint n => simp [Value.asUInt] at h
  | str s =>
    simp only [Value.asUInt, Except.error.injEq] at h
    exact Or.inr (Or.inr h.symm)
  | arr xs =>
    simp only [Value.asUInt, Except.error.injEq] at h
    exact Or.inr (Or.inr h.symm)
  | obj ms =>
    simp only [Value.asUInt, Except.error.injEq] at h
    exact Or.inr (Or.inr h.symm)

theorem appends_fulfill (c : core_t) (fid : Nat) (part : String) (v : Value)
    (hv : v.isObject = true) : appends dispatch_call c (fulfill c fid part v) :=
  ⟨[.fulfill fid part v], fulfill_trace c fid part v, by simpa [dispatch_call] using hv⟩

theorem appends_await (c : core_t) (fid n : Nat) : appends dispatch_call c (await c fid n) :=
  ⟨[.await fid n], rfl, by simp [dispatch_call]⟩

theorem appends_engine_call (c : core_t) (ev : call) (r : Option String)
    (h : dispatch_call ev) : appends dispatch_call c (engine_call c ev r).1 :=
  ⟨[ev], rfl, by simpa using h⟩

theorem error_response_isObject (w : String) : (error_response w).isObject = true := rfl

theorem appends_push (env : env_t) (c : core_t) (fid : Nat) (t : String) (a : Value) :
    appends dispatch_call c (push env c fid t a).1 := by
  have h0 : appends dispatch_call c (c.emit [.push fid t a]) :=
    appends_emit c _ (by simp [dispatch_call])
  have h1 : appends dispatch_call (c.emit [.push fid t a])
      ((c.emit [.push fid t a]).emit [.engine_new t]) :=
    appends_emit _ _ (by simp [dispatch_call])
  unfold push
  simp only
  split
  · exact appends_trans h0 (appends_engine_call _ _ _ (by simp [dispatch_call]))
  · split
    · refine appends_trans h0 (appends_trans h1 ?_)
      exact ⟨[.engine_push t fid a], rfl, by simp [dispatch_call]⟩
    · exact appends_trans h0 (appends_trans h1
        (appends_fulfill _ _ _ _ (error_response_isObject _)))
    · exact appends_trans h0 (appends_trans h1 (appends_emit _ _ (by simp [dispatch_call])))

theorem appends_drop (env : env_t) (c : core_t) (fid : Nat) (t : String) (a : Value) :
    appends dispatch_call c (drop env c fid t a).1 := by
  have h0 : appends dispatch_call c (c.emit [.drop fid t a]) :=
    appends_emit c _ (by simp [dispatch_call])
  unfold drop
  simp only
  split
  · exact appends_trans h0 (appends_engine_call _ _ _ (by simp [dispatch_call]))
  · exact appends_trans h0 (appends_fulfill _ _ _ _ (error_response_isObject _))

theorem stat_engines_isObject (env : env_t) (c : core_t) :
    (stat_engines env c).isObject = true := rfl

theorem stat_trace (env : env_t) (c : core_t) (fid : Nat) :
    (stat env c fid).trace = c.trace ++
      [.stat fid, .await fid 3,
       .fulfill fid "engines" (stat_engines env (await (c.emit [.stat fid]) fid 3)),
       .fulfill fid "threads"
          (.obj [("total", .uint env.counters.threads_created),
                 ("alive", .uint env.counters.threads_alive)]),
       .fulfill fid "requests"
          (.obj [("total", .uint env.counters.futures_created),
                 ("pending", .uint env.counters.futures_alive)])] := by
  simp [stat, List.append_assoc]

theorem appends_stat (env : env_t) (c : core_t) (fid : Nat) :
    appends dispatch_call c (stat env c fid) := by
  refine ⟨_, stat_trace env c fid, ?_⟩
  intro x hx
  simp only [List.mem_cons, List.mem_singleton, List.not_mem_nil, or_false] at hx
  rcases hx with rfl | rfl | rfl | rfl | rfl
  · simp [dispatch_call]
  · simp [dispatch_call]
  · exact stat_engines_isObject _ _
  · simp [dispatch_call, Value.isObject]
  · simp [dispatch_call, Value.isObject]

theorem appends_dispatch_loop (env : env_t) (action : String) (targets : Value) (fid : Nat)
    (names : List String) (c : core_t) :
    appends dispatch_call c (dispatch_loop env action targets fid names c).1 := by
  induction names generalizing c with
  | nil => exact appends_refl _ _
  | cons t rest ih =>
    unfold dispatch_loop
    simp only
    split
    · exact appends_trans (appends_fulfill c fid t _ (error_response_isObject _)) (ih _)
    · have hstep : appends dispatch_call c
          (if action = "push" then push env c fid t (targets.index t)
            else if action = "drop" then drop env c fid t (targets.index t)
            else (c, completion.normal)).1 := by
        split
        · exact appends_push _ _ _ _ _
        · split
          · exact appends_drop _ _ _ _ _
          · exact appends_refl _ _
      split
      · exact appends_trans hstep (ih _)
      · exact hstep

/-- After the entry of `dispatch` has been recorded, `dispatch` only appends
calls of its own kind. -/
theorem appends_dispatch_entry (env : env_t) (c : core_t) (fid : Nat) (root : Value) :
    appends dispatch_call (c.emit [.dispatch fid]) (dispatch env c fid root).1 := by
  unfold dispatch
  simp only
  split
  · exact appends_refl _ _
  · split
    · split
      · exact appends_refl _ _
      · exact appends_trans (appends_await _ _ _) (appends_dispatch_loop _ _ _ _ _ _)
    · split
      · exact appends_stat _ _ _
      · exact appends_refl _ _

theorem appends_dispatch (env : env_t) (c : core_t) (fid : Nat) (root : Value) :
    appends dispatch_call c (dispatch env c fid root).1 :=
  appends_trans (appends_emit c _ (by simp [dispatch_call])) (appends_dispatch_entry env c fid root)

/-- The messages `push` can raise with come from the engine. -/
theorem push_raised (env : env_t) (c : core_t) (fid : Nat) (t : String) (a : Value)
    (w : String) (h : (push env c fid t a).2 = .raised w) :
    ∃ t a, env.engine_push t a = some w := by
  unfold push at h
  simp only at h
  split at h
  · refine ⟨t, a, ?_⟩
    simp only [engine_call] at h
    split at h <;> simp_all
  · split at h
    · refine ⟨t, a, ?_⟩
      simp only [engine_call] at h
      split at h <;> simp_all
    · simp at h
    · simp at h

/-- The messages `drop` can raise with come from the engine. -/
theorem drop_raised (env : env_t) (c : core_t) (fid : Nat) (t : String) (a : Value)
    (w : String) (h : (drop env c fid t a).2 = .raised w) :
    ∃ t a, env.engine_drop t a = some w := by
  unfold drop at h
  simp only at h
  split at h
  · refine ⟨t, a, ?_⟩
    simp only [engine_call] at h
    split at h <;> simp_all
  · simp at h

theorem dispatch_loop_raised (env : env_t) (action : String) (targets : Value) (fid : Nat)
    (names : List String) (c : core_t) (w : String)
    (h : (dispatch_loop env action targets fid names c).2 = .raised w) :
    (∃ t a, env.engine_push t a = some w) ∨ (∃ t a, env.engine_drop t a = some w) := by
  induction names generalizing c with
  | nil => simp [dispatch_loop] at h
  | cons t rest ih =>
    unfold dispatch_loop at h
    simp only at h
    split at h
    · exact ih _ h
    · split at h
      · exact ih _ h
      · rename_i hne
        split at h
        · exact Or.inl (push_raised _ _ _ _ _ _ h)
        · split at h
          · exact Or.inr (drop_raised _ _ _ _ _ _ h)
          · simp at h

/-- The messages `dispatch` can raise with. -/
theorem dispatch_raised (env : env_t) (c : core_t) (fid : Nat) (root : Value) (w : String)
    (h : (dispatch env c fid root).2 = .raised w) :
    w = "Type is not convertible to string" ∨ w = "no targets specified" ∨
      w = "unsupported action" ∨
      (∃ t a, env.engine_push t a = some w) ∨ (∃ t a, env.engine_drop t a = some w) := by
  unfold dispatch at h
  simp only at h
  split at h
  · rename_i what hwhat
    simp only [completion.raised.injEq] at h
    subst h
    exact Or.inl (asString_error _ _ hwhat)
  · split at h
    · split at h
      · simp only [completion.raised.injEq] at h
        exact Or.inr (Or.inl h.symm)
      · rcases dispatch_loop_raised _ _ _ _ _ _ _ h with h | h
        · exact Or.inr (Or.inr (Or.inr (Or.inl h)))
        · exact Or.inr (Or.inr (Or.inr (Or.inr h)))
    · split at h
      · simp at h
      · simp only [completion.raised.injEq] at h
        exact Or.inr (Or.inr (Or.inl h.symm))

theorem find_future_new (c : core_t) (route : List String) :
    (new_future c route).1.find_future c.next_id =
      some { id := c.next_id, route := route, expected := 1, root := [], metadata := [] } := by
  simp [new_future, find_future]

@[simp]
theorem new_future_trace (c : core_t) (route : List String) :
    (new_future c route).1.trace = c.trace := rfl
@[simp]
theorem new_future_engines (c : core_t) (route : List String) :
    (new_future c route).1.engines = c.engines := rfl
@[simp]
theorem new_future_protocol (c : core_t) (route : List String) :
    (new_future c route).1.protocol = c.protocol := rfl
@[simp]
theorem new_future_id (c : core_t) (route : List String) :
    (new_future c route).2 = c.next_id := rfl

/-- Looking up `fid` after modifying the first future named `fid`. -/
theorem find_modify_first (fid : Nat) (g : future_t → future_t) (hg : ∀ f, (g f).id = f.id)
    (fs : List future_t) :
    (modify_first fid g fs).find? (fun f => decide (f.id = fid)) =
      (fs.find? (fun f => decide (f.id = fid))).map g := by
  induction fs with
  | nil => simp [modify_first]
  | cons f fs ih =>
    unfold modify_first
    by_cases h : f.id = fid
    · simp [h, hg]
    · simp [h, ih]

theorem find_future_set (c : core_t) (fid : Nat) (k v : String) :
    (set c fid k v).find_future fid =
      (c.find_future fid).map (fun f =>
        { f with metadata := f.metadata.filter (fun p => p.1 != k) ++ [(k, v)] }) := by
  simp only [set, find_future]
  apply find_modify_first
  intro f
  rfl

theorem find_future_await (c : core_t) (fid n : Nat) :
    (await c fid n).find_future fid =
      (c.find_future fid).map (fun f => { f with expected := n }) := by
  simp only [await, find_future, emit]
  apply find_modify_first
  intro f
  rfl

theorem find_future_emit (c : core_t) (l : List call) (fid : Nat) :
    (c.emit l).find_future fid = c.find_future fid := rfl

theorem find_future_fulfill (c : core_t) (fid : Nat) (part : String) (v : Value) :
    (fulfill c fid part v).find_future fid =
      (c.find_future fid).map (fun f => { f with root := Value.assign f.root part v }) := by
  simp only [find_future, fulfill_futures]
  apply find_modify_first
  intro f
  rfl

theorem accumulator_fulfill (c : core_t) (fid : Nat) (part : String) (v : Value) :
    (fulfill c fid part v).accumulator fid =
      (c.accumulator fid).map (fun r => Value.assign r part v) := by
  simp [accumulator, find_future_fulfill, Option.map_map, Function.comp_def]

theorem accumulator_set (c : core_t) (fid : Nat) (k v : String) :
    (set c fid k v).accumulator fid = c.accumulator fid := by
  simp [accumulator, find_future_set, Option.map_map, Function.comp_def]

theorem accumulator_await (c : core_t) (fid n : Nat) :
    (await c fid n).accumulator fid = c.accumulator fid := by
  simp [accumulator, find_future_await, Option.map_map, Function.comp_def]

theorem accumulator_emit (c : core_t) (l : List call) (fid : Nat) :
    (c.emit l).accumulator fid = c.accumulator fid := rfl

theorem accumulator_new (c : core_t) (route : List String) :
    (new_future c route).1.accumulator c.next_id = some [] := by
  simp [accumulator, find_future_new]

theorem appends_mono {P Q : call → Prop} (hPQ : ∀ x, P x → Q x) {c d : core_t}
    (h : appends P c d) : appends Q c d := by
  obtain ⟨l, e, p⟩ := h
  exact ⟨l, e, fun x hx => hPQ x (p x hx)⟩

theorem plain_of_dispatch_call (x : call) (h : dispatch_call x) : plain_call x := by
  cases x with
  | fulfill fid part v => cases v <;> simp_all [dispatch_call, plain_call, Value.isObject]
  | _ => simp [plain_call]

theorem appends_set {P : call → Prop} (c : core_t) (fid : Nat) (k v : String) :
    appends P c (set c fid k v) :=
  ⟨[], by simp, by simp⟩

/-- The `try` block of `request` fulfills no part with a bare string. -/
theorem appends_request_try (env : env_t) (c : core_t) (fid : Nat) (root : Value)
    (payload signature : String) :
    appends plain_call c (request_try env c fid root payload signature).1 := by
  have hd : ∀ d : core_t, appends plain_call d (dispatch env d fid root).1 := fun d =>
    appends_mono plain_of_dispatch_call (appends_dispatch env d fid root)
  unfold request_try
  split
  · exact appends_refl _ _
  · split
    · exact appends_refl _ _
    · split
      · exact appends_refl _ _
      · rename_i version _ token _
        split
        · split
          · split
            · split
              · exact appends_trans (appends_set c fid _ _)
                  (appends_trans (appends_set _ fid _ _) (appends_emit _ _ (by simp [plain_call])))
              · exact appends_trans (appends_set c fid _ _)
                  (appends_trans (appends_set _ fid _ _)
                    (appends_trans (appends_emit _ [.verify payload signature token]
                      (by simp [plain_call])) (hd _)))
            · exact appends_trans (appends_set c fid _ _)
                (appends_trans (appends_set _ fid _ _) (hd _))
          · exact appends_set c fid _ _
        · exact appends_refl _ _

/-- Where the messages raised inside the `try` block of `request` come
from. -/
theorem request_try_raised (env : env_t) (c : core_t) (fid : Nat) (root : Value)
    (payload signature w : String)
    (h : (request_try env c fid root payload signature).2 = .raised w) :
    w = "object expected" ∨
      (root.get "version" (.int 1)).asUInt = .error w ∨
      w = "Type is not convertible to string" ∨
      (w = "outdated protocol version" ∧
        ∃ v, (root.get "version" (.int 1)).asUInt = .ok v ∧ v < c.protocol) ∨
      (w = "security token expected" ∧ (root.get "token" (.str "")).asString = .ok "") ∨
      (∃ p s t, env.verify p s t = some w) ∨
      w = "no targets specified" ∨ w = "unsupported action" ∨
      (∃ t a, env.engine_push t a = some w) ∨ (∃ t a, env.engine_drop t a = some w) := by
  have hd : ∀ d : core_t, (dispatch env d fid root).2 = .raised w →
      w = "Type is not convertible to string" ∨ w = "no targets specified" ∨
        w = "unsupported action" ∨
        (∃ t a, env.engine_push t a = some w) ∨ (∃ t a, env.engine_drop t a = some w) :=
    fun d hd => dispatch_raised env d fid root w hd
  unfold request_try at h
  split at h
  · simp only [completion.raised.injEq] at h
    exact Or.inl h.symm
  · split at h
    · rename_i what hwhat
      simp only [completion.raised.injEq] at h
      subst h
      exact Or.inr (Or.inl hwhat)
    · rename_i version hversion
      split at h
      · rename_i what hwhat
        simp only [completion.raised.injEq] at h
        subst h
        exact Or.inr (Or.inr (Or.inl (asString_error _ _ hwhat)))
      · rename_i token htoken
        split at h
        · split at h
          · have key : (∃ p s t, env.verify p s t = some w) ∨
                w = "Type is not convertible to string" ∨ w = "no targets specified" ∨
                w = "unsupported action" ∨
                (∃ t a, env.engine_push t a = some w) ∨
                (∃ t a, env.engine_drop t a = some w) := by
              split at h
              · split at h
                · rename_i what hwhat
                  simp only [completion.raised.injEq] at h
                  subst h
                  exact Or.inl ⟨_, _, _, hwhat⟩
                · exact Or.inr (hd _ h)
              · exact Or.inr (hd _ h)
            rcases key with k | k | k | k | k | k
            · exact Or.inr (Or.inr (Or.inr (Or.inr (Or.inr (Or.inl k)))))
            · exact Or.inr (Or.inr (Or.inl k))
            · exact Or.inr (Or.inr (Or.inr (Or.inr (Or.inr (Or.inr (Or.inl k))))))
            · exact Or.inr (Or.inr (Or.inr (Or.inr (Or.inr (Or.inr (Or.inr (Or.inl k)))))))
            · exact Or.inr (Or.inr (Or.inr (Or.inr (Or.inr (Or.inr (Or.inr (Or.inr (Or.inl k))))))))
            · exact Or.inr (Or.inr (Or.inr (Or.inr (Or.inr (Or.inr (Or.inr (Or.inr (Or.inr k))))))))
          · rename_i htok
            simp only [completion.raised.injEq] at h
            have ht : token = "" := by simpa using htok
            subst ht
            exact Or.inr (Or.inr (Or.inr (Or.inr (Or.inl ⟨h.symm, htoken⟩))))
        · rename_i hlt
          simp only [completion.raised.injEq] at h
          exact Or.inr (Or.inr (Or.inr (Or.inl ⟨h.symm, version, hversion, by omega⟩)))

/-- What `request` appends when the payload parses: the calls of the `try`
block, none of which fulfills a part with a bare string, followed, when a
message `w` was raised, by the part `error` carrying `w`. -/
theorem request_since (env : env_t) (c : core_t) (route : List String)
    (payload signature : String) (root : Value) (hparse : env.parse payload = .ok root) :
    ∃ l, (∀ x ∈ l, plain_call x) ∧
      (since c.trace.length (request env c route payload signature).1 = l ∨
        ∃ w, (request_try env (new_future c route).1 c.next_id root payload signature).2 =
            .raised w ∧
          since c.trace.length (request env c route payload signature).1 =
            l ++ [.fulfill c.next_id "error" (.str w)]) := by
  obtain ⟨l, hl, hp⟩ := appends_request_try env (new_future c route).1 c.next_id root
    payload signature
  refine ⟨l, hp, ?_⟩
  simp only [new_future_trace] at hl
  unfold request
  simp only [hparse, new_future_id]
  split
  · rename_i what hwhat
    right
    refine ⟨what, hwhat, ?_⟩
    simp [since, hl]
  · left
    simp [since, hl]

/-- C6 as stated fails, because the handler converts the version and the
token before it compares the version. With minimum protocol 2, the request of
version 0 whose token is an object is answered with the conversion failure of
the token, and the request of version -1 with the token `T` is answered with
the conversion failure of the version; neither is answered with "outdated
protocol version". -/
theorem outdated_version_counterexample :
    sample_core.protocol = 2 ∧
    ((sample_bad_token.get "version" (.int 1)).asUInt = .ok 0 ∧
      (request (sample_env sample_bad_token .null) sample_core ["client"] "payload" "").1.trace =
        [.fulfill 0 "error" (.str "Type is not convertible to string")] ∧
      (request (sample_env sample_bad_token .null) sample_core ["client"] "payload"
          "").1.accumulator 0 ≠ some [("error", .str "outdated protocol version")]) ∧
    (sample_negative_version.get "version" (.int 1) = .int (-1) ∧
      (sample_negative_version.get "token" (.str "")).asString = .ok "T" ∧
      (request (sample_env sample_negative_version .null) sample_core ["client"] "payload"
          "").1.trace =
        [.fulfill 0 "error"
          (.str "Negative integer can not be converted to unsigned integer")] ∧
      (request (sample_env sample_negative_version .null) sample_core ["client"] "payload"
          "").1.accumulator 0 ≠ some [("error", .str "outdated protocol version")]) := by
  refine ⟨rfl, ⟨rfl, rfl, ?_⟩, ⟨rfl, rfl, rfl, ?_⟩⟩
  · intro h
    have h2 : (request (sample_env sample_bad_token .null) sample_core ["client"] "payload"
        "").1.accumulator 0 = some [("error", .str "Type is not convertible to string")] := rfl
    rw [h2] at h
    simp at h
  · intro h
    have h2 : (request (sample_env sample_negative_version .null) sample_core ["client"]
        "payload" "").1.accumulator 0 =
        some [("error", .str "Negative integer can not be converted to unsigned integer")] :=
      rfl
    rw [h2] at h
    simp at h

/-- C6, amended: a request whose payload parses to an object, whose version
(1 when absent) converts to an unsigned integer `v` below the configured
minimum, and whose token (empty when absent) converts to a string, is
answered with the single part `error = "outdated protocol
version"`: that fulfilment is the only call made (no signature check, no
dispatch, no engine call) and the engine registry is unchanged. Conversely,
when `v` is at least the minimum and no collaborator raises with that very
message, no part carrying that message is fulfilled. -/
theorem request_outdated_version (env : env_t) (c : core_t) (route : List String)
    (payload signature : String) (root : Value) (v : Nat)
    (hparse : env.parse payload = .ok root) (hobj : root.isObject = true)
    (hv : (root.get "version" (.int 1)).asUInt = .ok v) :
    (v < c.protocol → (∃ t, (root.get "token" (.str "")).asString = .ok t) →
      (request env c route payload signature).2 = .normal ∧
      (request env c route payload signature).1.trace =
        c.trace ++ [.fulfill c.next_id "error" (.str "outdated protocol version")] ∧
      (request env c route payload signature).1.accumulator c.next_id =
        some [("error", .str "outdated protocol version")] ∧
      (request env c route payload signature).1.engines = c.engines) ∧
    (c.protocol ≤ v → never_raises env "outdated protocol version" →
      ∀ fid part, call.fulfill fid part (.str "outdated protocol version") ∉
        since c.trace.length (request env c route payload signature).1) := by
  constructor
  · rintro hlt ⟨t, ht⟩
    have hnot : ¬ c.protocol ≤ v := by omega
    have htry : request_try env (new_future c route).1 c.next_id root payload signature =
        ((new_future c route).1, .raised "outdated protocol version") := by
      simp [request_try, hobj, hv, ht, hnot]
    have hreq : request env c route payload signature =
        (fulfill (new_future c route).1 c.next_id "error" (.str "outdated protocol version"),
          .normal) := by
      simp only [request, hparse, new_future_id, htry]
    rw [hreq]
    refine ⟨rfl, by simp, ?_, by simp⟩
    simp only [accumulator_fulfill, accumulator_new]
    rfl
  · intro hle hnever fid part hmem
    obtain ⟨l, hp, hcase⟩ := request_since env c route payload signature root hparse
    rcases hcase with hs | ⟨w, hw, hs⟩
    · rw [hs] at hmem
      exact hp _ hmem
    · rw [hs] at hmem
      rcases List.mem_append.mp hmem with hm | hm
      · exact hp _ hm
      · simp only [List.mem_singleton, call.fulfill.injEq, Value.str.injEq] at hm
        obtain ⟨-, -, hwe⟩ := hm
        subst hwe
        obtain ⟨hver, hpush, hdrop⟩ := hnever
        rcases request_try_raised _ _ _ _ _ _ _ hw with
          k | k | k | ⟨-, v2, hv2, hlt⟩ | ⟨k, -⟩ | ⟨p, s, t, k⟩ | k | k | ⟨t, a, k⟩ | ⟨t, a, k⟩
        · exact absurd k (by decide)
        · rw [hv] at k
          cases k
        · exact absurd k (by decide)
        · simp only [new_future_protocol] at hlt
          rw [hv] at hv2
          cases hv2
          omega
        · exact absurd k (by decide)
        · exact hver p s t k
        · exact absurd k (by decide)
        · exact absurd k (by decide)
        · exact hpush t a k
        · exact hdrop t a k

/-- The request handler applied to a payload that parses and passes the
version and token checks with a version above 2 whose signature is refused. -/
theorem request_verify_fails (env : env_t) (c : core_t) (route : List String)
    (payload signature : String) (root : Value) (v : Nat) (t w : String)
    (hparse : env.parse payload = .ok root) (hobj : root.isObject = true)
    (hv : (root.get "version" (.int 1)).asUInt = .ok v)
    (ht : (root.get "token" (.str "")).asString = .ok t)
    (hle : c.protocol ≤ v) (hne : t ≠ "") (h2 : 2 < v)
    (hw : env.verify payload signature t = some w) :
    request env c route payload signature =
      (fulfill ((set (set (new_future c route).1 c.next_id "protocol" (toString v))
          c.next_id "token" t).emit [.verify payload signature t])
        c.next_id "error" (.str w), .normal) := by
  have htry : request_try env (new_future c route).1 c.next_id root payload signature =
      ((set (set (new_future c route).1 c.next_id "protocol" (toString v))
          c.next_id "token" t).emit [.verify payload signature t], .raised w) := by
    simp [request_try, hobj, hv, ht, hle, hne, h2, hw]
  simp only [request, hparse, new_future_id, htry]

/-- The request handler applied to a payload that parses and passes the
version, token and signature checks: the outcome of `dispatch`, with the part
`error` added when `dispatch` raises. -/
theorem request_dispatches (env : env_t) (c : core_t) (route : List String)
    (payload signature : String) (root : Value) (v : Nat) (t : String)
    (hparse : env.parse payload = .ok root) (hobj : root.isObject = true)
    (hv : (root.get "version" (.int 1)).asUInt = .ok v)
    (ht : (root.get "token" (.str "")).asString = .ok t)
    (hle : c.protocol ≤ v) (hne : t ≠ "")
    (hok : 2 < v → env.verify payload signature t = none) :
    request env c route payload signature =
      (let c2 := set (set (new_future c route).1 c.next_id "protocol" (toString v))
          c.next_id "token" t
       let c3 := if 2 < v then c2.emit [.verify payload signature t] else c2
       let r := dispatch env c3 c.next_id root
       match r.2 with
       | .raised what => (fulfill r.1 c.next_id "error" (.str what), .normal)
       | _ => r) := by
  have htry : request_try env (new_future c route).1 c.next_id root payload signature =
      dispatch env
        (if 2 < v then (set (set (new_future c route).1 c.next_id "protocol" (toString v))
            c.next_id "token" t).emit [.verify payload signature t]
          else set (set (new_future c route).1 c.next_id "protocol" (toString v))
            c.next_id "token" t) c.next_id root := by
    by_cases h2 : 2 < v
    · simp [request_try, hobj, hv, ht, hle, hne, h2, hok h2]
    · simp [request_try, hobj, hv, ht, hle, hne, h2]
  simp only [request, hparse, new_future_id, htry]

/-- The calls appended by `dispatch` run from a state whose trace extends the
reference trace by `pre`, with the `catch` of the request handler applied. -/
theorem dispatch_catch_since (env : env_t) (c0 c3 : core_t) (fid : Nat) (root : Value)
    (pre : List call) (h3 : c3.trace = c0.trace ++ pre) :
    ∃ l tail, (∀ x ∈ l, dispatch_call x) ∧
      (tail = [] ∨ ∃ w, tail = [call.fulfill fid "error" (.str w)]) ∧
      since c0.trace.length
        (match (dispatch env c3 fid root).2 with
          | .raised what => (fulfill (dispatch env c3 fid root).1 fid "error" (.str what),
              completion.normal)
          | _ => dispatch env c3 fid root).1 = pre ++ call.dispatch fid :: l ++ tail := by
  obtain ⟨l, hl, hp⟩ := appends_dispatch_entry env c3 fid root
  simp only [emit_trace, h3] at hl
  split
  · rename_i what _
    refine ⟨l, [.fulfill fid "error" (.str what)], hp, Or.inr ⟨what, rfl⟩, ?_⟩
    simp [since, hl, List.append_assoc]
  · refine ⟨l, [], hp, Or.inl rfl, ?_⟩
    simp [since, hl, List.append_assoc]

/-- C7: an object request of version `v` at least the configured minimum whose
token is empty or absent is answered with the single part `error = "security
token expected"`: that fulfilment is the only call made (no signature check,
no dispatch, no engine call). Conversely, for a request with a non-empty
token, when no collaborator raises with that very message, no part carrying
that message is fulfilled. -/
theorem request_token_expected (env : env_t) (c : core_t) (route : List String)
    (payload signature : String) (root : Value)
    (hparse : env.parse payload = .ok root) :
    (∀ v, root.isObject = true → (root.get "version" (.int 1)).asUInt = .ok v →
      c.protocol ≤ v → (root.get "token" (.str "")).asString = .ok "" →
      (request env c route payload signature).2 = .normal ∧
      (request env c route payload signature).1.trace =
        c.trace ++ [.fulfill c.next_id "error" (.str "security token expected")] ∧
      (request env c route payload signature).1.accumulator c.next_id =
        some [("error", .str "security token expected")] ∧
      (request env c route payload signature).1.engines = c.engines) ∧
    (∀ t, (root.get "token" (.str "")).asString = .ok t → t ≠ "" →
      never_raises env "security token expected" →
      ∀ fid part, call.fulfill fid part (.str "security token expected") ∉
        since c.trace.length (request env c route payload signature).1) := by
  constructor
  · intro v hobj hv hle ht
    have htry : request_try env (new_future c route).1 c.next_id root payload signature =
        (set (new_future c route).1 c.next_id "protocol" (toString v),
          .raised "security token expected") := by
      simp [request_try, hobj, hv, ht, hle]
    have hreq : request env c route payload signature =
        (fulfill (set (new_future c route).1 c.next_id "protocol" (toString v)) c.next_id
          "error" (.str "security token expected"), .normal) := by
      simp only [request, hparse, new_future_id, htry]
    rw [hreq]
    refine ⟨rfl, by simp, ?_, by simp⟩
    simp only [accumulator_fulfill, accumulator_set, accumulator_new]
    rfl
  · intro t ht hne hnever fid part hmem
    obtain ⟨l, hp, hcase⟩ := request_since env c route payload signature root hparse
    rcases hcase with hs | ⟨w, hw, hs⟩
    · rw [hs] at hmem
      exact hp _ hmem
    · rw [hs] at hmem
      rcases List.mem_append.mp hmem with hm | hm
      · exact hp _ hm
      · simp only [List.mem_singleton, call.fulfill.injEq, Value.str.injEq] at hm
        obtain ⟨-, -, hwe⟩ := hm
        subst hwe
        obtain ⟨hver, hpush, hdrop⟩ := hnever
        rcases request_try_raised _ _ _ _ _ _ _ hw with
          k | k | k | ⟨k, -⟩ | ⟨-, k⟩ | ⟨p, s, t, k⟩ | k | k | ⟨t, a, k⟩ | ⟨t, a, k⟩
        · exact absurd k (by decide)
        · rcases asUInt_error _ _ k with k | k | k <;> exact absurd k (by decide)
        · exact absurd k (by decide)
        · exact absurd k (by decide)
        · rw [ht] at k
          simp only [Except.ok.injEq] at k
          exact hne k
        · exact hver p s t k
        · exact absurd k (by decide)
        · exact absurd k (by decide)
        · exact hpush t a k
        · exact hdrop t a k

/-- C8: for an object request that passes the version and token checks
(version `v` at least the minimum, token `t` non-empty), the signing
collaborator is called, with the payload, the signature frame and the token,
exactly when `v > 2`; with `v ≤ 2` no signature check is made and `dispatch`
is entered. When `verify` raises with `w`, the handler makes no further call
but the fulfilment of the part `error` with `w`: `dispatch` is not entered. -/
theorem verify_iff_version_above_two (env : env_t) (c : core_t) (route : List String)
    (payload signature : String) (root : Value) (v : Nat) (t : String)
    (hparse : env.parse payload = .ok root) (hobj : root.isObject = true)
    (hv : (root.get "version" (.int 1)).asUInt = .ok v)
    (ht : (root.get "token" (.str "")).asString = .ok t)
    (hle : c.protocol ≤ v) (hne : t ≠ "") :
    (call.verify payload signature t ∈
        since c.trace.length (request env c route payload signature).1 ↔ 2 < v) ∧
    (∀ p s k, call.verify p s k ∈
        since c.trace.length (request env c route payload signature).1 →
      2 < v ∧ p = payload ∧ s = signature ∧ k = t) ∧
    ((¬ 2 < v ∨ env.verify payload signature t = none) →
      call.dispatch c.next_id ∈
        since c.trace.length (request env c route payload signature).1) ∧
    (∀ w, 2 < v → env.verify payload signature t = some w →
      (request env c route payload signature).2 = .normal ∧
      (request env c route payload signature).1.trace =
        c.trace ++ [.verify payload signature t, .fulfill c.next_id "error" (.str w)] ∧
      (request env c route payload signature).1.accumulator c.next_id =
        some [("error", .str w)]) := by
  have hfail : ∀ w, 2 < v → env.verify payload signature t = some w →
      (request env c route payload signature).2 = .normal ∧
      (request env c route payload signature).1.trace =
        c.trace ++ [.verify payload signature t, .fulfill c.next_id "error" (.str w)] ∧
      (request env c route payload signature).1.accumulator c.next_id =
        some [("error", .str w)] := by
    intro w h2 hw
    rw [request_verify_fails env c route payload signature root v t w hparse hobj hv ht hle
      hne h2 hw]
    refine ⟨rfl, by simp [List.append_assoc], ?_⟩
    simp only [accumulator_fulfill, accumulator_emit, accumulator_set, accumulator_new]
    rfl
  have hsince : (2 < v ∧ ∃ w, env.verify payload signature t = some w ∧
        since c.trace.length (request env c route payload signature).1 =
          [.verify payload signature t, .fulfill c.next_id "error" (.str w)]) ∨
      ((¬ 2 < v ∨ env.verify payload signature t = none) ∧
        ∃ l tail, (∀ x ∈ l, dispatch_call x) ∧
          (tail = [] ∨ ∃ w, tail = [call.fulfill c.next_id "error" (.str w)]) ∧
          since c.trace.length (request env c route payload signature).1 =
            (if 2 < v then [call.verify payload signature t] else []) ++
              call.dispatch c.next_id :: l ++ tail) := by
    by_cases h2 : 2 < v
    · cases hw : env.verify payload signature t with
      | some w =>
        left
        refine ⟨h2, w, rfl, ?_⟩
        simp [since, (hfail w h2 hw).2.1]
      | none =>
        right
        refine ⟨Or.inr rfl, ?_⟩
        rw [request_dispatches env c route payload signature root v t hparse hobj hv ht hle
          hne (fun _ => hw)]
        simp only [h2, if_true]
        exact dispatch_catch_since env c _ c.next_id root [.verify payload signature t]
          (by simp)
    · right
      refine ⟨Or.inl h2, ?_⟩
      rw [request_dispatches env c route payload signature root v t hparse hobj hv ht hle
        hne (fun h => absurd h h2)]
      simp only [h2, if_false]
      exact dispatch_catch_since env c _ c.next_id root [] (by simp)
  refine ⟨?_, ?_, ?_, hfail⟩
  · rcases hsince with ⟨h2, w, -, hs⟩ | ⟨-, l, tail, hp, htail, hs⟩
    · simp [hs, h2]
    · rw [hs]
      by_cases h2 : 2 < v
      · simp [h2]
      · simp only [h2, if_false, List.nil_append, iff_false]
        intro hmem
        rcases List.mem_append.mp hmem with hm | hm
        · rcases List.mem_cons.mp hm with hm | hm
          · cases hm
          · exact hp _ hm
        · rcases htail with rfl | ⟨w, rfl⟩ <;> simp at hm
  · intro p s k hmem
    rcases hsince with ⟨h2, w, -, hs⟩ | ⟨-, l, tail, hp, htail, hs⟩
    · rw [hs] at hmem
      simp at hmem
      exact ⟨h2, hmem⟩
    · rw [hs] at hmem
      have hnot : call.verify p s k ∉ call.dispatch c.next_id :: l ++ tail := by
        intro hm
        rcases List.mem_append.mp hm with hm | hm
        · rcases List.mem_cons.mp hm with hm | hm
          · cases hm
          · exact hp _ hm
        · rcases htail with rfl | ⟨w, rfl⟩ <;> simp at hm
      by_cases h2 : 2 < v
      · simp only [h2, if_true, List.append_assoc] at hmem
        rcases List.mem_append.mp hmem with hm | hm
        · simp at hm
          exact ⟨h2, hm⟩
        · exact absurd (by simpa [List.append_assoc] using hm) hnot
      · simp only [h2, if_false, List.nil_append] at hmem
        exact absurd hmem hnot
  · intro hcond
    rcases hsince with ⟨h2, w, hw, -⟩ | ⟨-, l, tail, -, -, hs⟩
    · rcases hcond with hc | hc
      · exact absurd h2 hc
      · rw [hc] at hw
        cases hw
    · rw [hs]
      simp

theorem expected_emit (c : core_t) (l : List call) (fid : Nat) :
    (c.emit l).expected fid = c.expected fid := rfl

theorem assign_fresh (ms : List (String × Value)) (key : String) (v : Value)
    (h : ms.any (fun p => p.1 == key) = false) : Value.assign ms key v = ms ++ [(key, v)] := by
  simp [Value.assign, h]

theorem fulfill_sealing (c : core_t) (fid : Nat) (part : String) (v : Value) (f : future_t)
    (hf : c.find_future fid = some f) :
    (fulfill c fid part v).sealing =
      if (Value.assign f.root part v).length = f.expected then c.sealing ++ [fid]
      else c.sealing := by
  have h0 := find_future_fulfill c fid part v
  rw [hf] at h0
  unfold fulfill at h0 ⊢
  simp only [find_future, emit] at h0 ⊢
  split at h0
  · rename_i g hg
    split at h0
    · rename_i hlen
      simp only [hg, Option.map_some', Option.some.injEq] at h0
      subst h0
      simp only [hg] at hlen ⊢
      simp [hlen]
    · rename_i hlen
      simp only [hg, Option.map_some', Option.some.injEq] at h0
      subst h0
      simp only [hg] at hlen ⊢
      simp [hlen]
  · rename_i hnone
    simp [hnone] at h0

/-- The loop of `dispatch` for `drop` when no target has an engine: every
target gets the part "engine not found", no engine is called or created. -/
theorem drop_loop_missing (env : env_t) (targets : Value) (fid : Nat)
    (names : List String) (c : core_t) (f : future_t)
    (hnodup : names.Nodup)
    (hobj : ∀ t ∈ names, (targets.index t).isObject = true)
    (hno : ∀ t ∈ names, c.engines.contains t = false)
    (hf : c.find_future fid = some f)
    (hfresh : ∀ t ∈ names, f.root.any (fun p => p.1 == t) = false) :
    (dispatch_loop env "drop" targets fid names c).2 = .normal ∧
    (dispatch_loop env "drop" targets fid names c).1.engines = c.engines ∧
    (∃ l, (dispatch_loop env "drop" targets fid names c).1.trace = c.trace ++ l ∧
      engine_calls l = []) ∧
    (dispatch_loop env "drop" targets fid names c).1.find_future fid =
      some (with_parts f (names.map (fun t => (t, error_response "engine not found")))) ∧
    (names ≠ [] → f.expected = f.root.length + names.length →
      fid ∈ (dispatch_loop env "drop" targets fid names c).1.sealing) := by
  induction names generalizing c f with
  | nil =>
    refine ⟨rfl, rfl, ⟨[], by simp [dispatch_loop], rfl⟩, ?_, fun h => absurd rfl h⟩
    simp [dispatch_loop, hf, with_parts]
  | cons t rest ih =>
    have hnd := List.nodup_cons.mp hnodup
    have hobjt := hobj t (List.mem_cons_self _ _)
    have hnot := hno t (List.mem_cons_self _ _)
    have hfrt := hfresh t (List.mem_cons_self _ _)
    have hdrop : drop env c fid t (targets.index t) =
        (fulfill (c.emit [.drop fid t (targets.index t)]) fid t
          (error_response "engine not found"), .normal) := by
      unfold drop
      simp only [emit_engines, hnot, Bool.false_eq_true, if_false]
    have hloop : dispatch_loop env "drop" targets fid (t :: rest) c =
        dispatch_loop env "drop" targets fid rest
          (fulfill (c.emit [.drop fid t (targets.index t)]) fid t
            (error_response "engine not found")) := by
      conv_lhs => unfold dispatch_loop
      have hne : ¬ ("drop" = "push") := by decide
      simp only [hobjt, Bool.not_true, Bool.false_eq_true, if_false, hne, if_true, hdrop]
    have hf1 : (fulfill (c.emit [.drop fid t (targets.index t)]) fid t
        (error_response "engine not found")).find_future fid =
        some (with_parts f [(t, error_response "engine not found")]) := by
      rw [find_future_fulfill, find_future_emit, hf]
      simp [assign_fresh _ _ _ hfrt, with_parts]
    rw [hloop]
    obtain ⟨h1, h2, ⟨l, h3, h3e⟩, h4, h5⟩ := ih
      (fulfill (c.emit [.drop fid t (targets.index t)]) fid t (error_response "engine not found"))
      (with_parts f [(t, error_response "engine not found")]) hnd.2
      (fun x hx => hobj x (List.mem_cons_of_mem _ hx))
      (fun x hx => by simpa using hno x (List.mem_cons_of_mem _ hx))
      hf1
      (fun x hx => by
        have hx1 := hfresh x (List.mem_cons_of_mem _ hx)
        have hne : t ≠ x := fun h => hnd.1 (h ▸ hx)
        simp [with_parts, hx1, hne])
    refine ⟨h1, by simpa using h2, ?_, ?_, ?_⟩
    · refine ⟨[.drop fid t (targets.index t),
        .fulfill fid t (error_response "engine not found")] ++ l, ?_, ?_⟩
      · rw [h3]
        simp [List.append_assoc]
      · simp only [engine_calls, List.filter_append] at h3e ⊢
        simp [h3e]
    · rw [h4]
      simp [with_parts, List.append_assoc]
    · intro _ hexp
      by_cases hrest : rest = []
      · subst hrest
        simp only [dispatch_loop]
        rw [fulfill_sealing _ _ _ _ f (by rw [find_future_emit, hf])]
        have : (Value.assign f.root t (error_response "engine not found")).length =
            f.expected := by
          rw [assign_fresh _ _ _ hfrt, hexp]
          simp
        simp [this]
      · apply h5 hrest
        simp only [with_parts, List.length_append, List.length_singleton]
        simp only [List.length_cons] at hexp
        omega

/-- The drop of a target without engine and the request made of such drops,
stated with the response helper of the model. -/
theorem drop_unknown_engine_parts (env : env_t) (c : core_t) :
    (∀ fid target args, c.engines.contains target = false →
      (drop env c fid target args).2 = .normal ∧
      (drop env c fid target args).1.trace = c.trace ++
        [.drop fid target args, .fulfill fid target (error_response "engine not found")] ∧
      (drop env c fid target args).1.engines = c.engines ∧
      (drop env c fid target args).1.accumulator fid =
        (c.accumulator fid).map
          (fun r => Value.assign r target (error_response "engine not found"))) ∧
    (∀ route payload signature root v t,
      env.parse payload = .ok root → root.isObject = true →
      (root.get "version" (.int 1)).asUInt = .ok v → c.protocol ≤ v →
      (root.get "token" (.str "")).asString = .ok t → t ≠ "" →
      (2 < v → env.verify payload signature t = none) →
      (root.get "action" (.str "push")).asString = .ok "drop" →
      (root.index "targets").isObject = true → (root.index "targets").size ≠ 0 →
      (root.index "targets").getMemberNames.Nodup →
      (∀ name ∈ (root.index "targets").getMemberNames,
        ((root.index "targets").index name).isObject = true) →
      (∀ name ∈ (root.index "targets").getMemberNames, c.engines.contains name = false) →
      (request env c route payload signature).2 = .normal ∧
      (request env c route payload signature).1.accumulator c.next_id =
        some ((root.index "targets").getMemberNames.map
          (fun name => (name, error_response "engine not found"))) ∧
      (request env c route payload signature).1.expected c.next_id =
        some (root.index "targets").getMemberNames.length ∧
      c.next_id ∈ (request env c route payload signature).1.sealing ∧
      (request env c route payload signature).1.engines = c.engines ∧
      engine_calls (since c.trace.length (request env c route payload signature).1) = []) := by
  constructor
  · intro fid target args hno
    have hdrop : drop env c fid target args =
        (fulfill (c.emit [.drop fid target args]) fid target
          (error_response "engine not found"), .normal) := by
      unfold drop
      simp only [emit_engines, hno, Bool.false_eq_true, if_false]
    rw [hdrop]
    refine ⟨rfl, by simp [List.append_assoc], by simp, ?_⟩
    rw [accumulator_fulfill, accumulator_emit]
  · intro route payload signature root v t hparse hobj hv hle ht hne hok haction htobj htsize
      hnodup hargs hno
    rw [request_dispatches env c route payload signature root v t hparse hobj hv ht hle hne hok]
    dsimp only
    generalize hc3 : (if 2 < v then
        (set (set (new_future c route).1 c.next_id "protocol" (toString v))
          c.next_id "token" t).emit [.verify payload signature t]
      else set (set (new_future c route).1 c.next_id "protocol" (toString v))
          c.next_id "token" t) = c3
    have hc3f : ∃ f, c3.find_future c.next_id = some f ∧ f.root = [] := by
      subst hc3
      split
      · rw [find_future_emit, find_future_set, find_future_set, find_future_new]
        exact ⟨_, rfl, rfl⟩
      · rw [find_future_set, find_future_set, find_future_new]
        exact ⟨_, rfl, rfl⟩
    have hc3e : c3.engines = c.engines := by
      subst hc3
      split <;> rfl
    have hc3t : ∃ pre, c3.trace = c.trace ++ pre ∧ engine_calls pre = [] := by
      subst hc3
      split
      · exact ⟨[.verify payload signature t], by simp, rfl⟩
      · exact ⟨[], by simp, rfl⟩
    obtain ⟨f, hf, hroot⟩ := hc3f
    obtain ⟨pre, hpre, hpree⟩ := hc3t
    have hd : dispatch env c3 c.next_id root =
        dispatch_loop env "drop" (root.index "targets") c.next_id
          (root.index "targets").getMemberNames
          (await (c3.emit [.dispatch c.next_id]) c.next_id
            (root.index "targets").getMemberNames.length) := by
      unfold dispatch
      simp [haction, htobj, htsize]
    have hfa : (await (c3.emit [.dispatch c.next_id]) c.next_id
        (root.index "targets").getMemberNames.length).find_future c.next_id =
        some { f with expected := (root.index "targets").getMemberNames.length } := by
      rw [find_future_await, find_future_emit, hf]
      rfl
    obtain ⟨h1, h2, ⟨l, h3, h3e⟩, h4, h5⟩ :=
      drop_loop_missing env (root.index "targets") c.next_id
        (root.index "targets").getMemberNames
        (await (c3.emit [.dispatch c.next_id]) c.next_id
          (root.index "targets").getMemberNames.length)
        { f with expected := (root.index "targets").getMemberNames.length }
        hnodup hargs (fun x hx => by simpa [hc3e] using hno x hx) hfa
        (fun x _ => by simp [hroot])
    have hnames : (root.index "targets").getMemberNames ≠ [] := by
      intro hnil
      apply htsize
      cases htg : root.index "targets" with
      | obj ms =>
        rw [htg] at hnil
        simp only [Value.getMemberNames, List.map_eq_nil_iff] at hnil
        simp [Value.size, hnil]
      | _ =>
        rw [htg] at htobj
        simp [Value.isObject] at htobj
    simp only [hd, h1]
    refine ⟨trivial, ?_, ?_, ?_, ?_, ?_⟩
    · simp [accumulator, h4, with_parts, hroot]
    · simp [expected, h4, with_parts]
    · exact h5 hnames (by simp [hroot])
    · rw [h2]
      simpa using hc3e
    · simp only [since, h3, await_trace, emit_trace, hpre, List.append_assoc,
        List.drop_left]
      simp only [engine_calls, List.filter_append] at hpree h3e ⊢
      simp [hpree, h3e]

/-- C10: a drop of a target for which the engine registry holds no engine
fulfills the part named by the target with `{error: "engine not found"}`,
calls no engine and leaves the engine registry as it was. Consequently a
request that passes the checks, has action `drop`, and whose `N` distinct
targets all carry object arguments and have no engine, ends with the
accumulator mapping each of the `N` names, in order, to `{error: "engine not
found"}`; the expected count is `N`, the future is scheduled for seal, no
engine is created or called. -/
theorem drop_unknown_engine (env : env_t) (c : core_t) :
    (∀ fid target args, c.engines.contains target = false →
      (drop env c fid target args).2 = .normal ∧
      (drop env c fid target args).1.trace = c.trace ++
        [.drop fid target args, .fulfill fid target (.obj [("error", .str "engine not found")])] ∧
      (drop env c fid target args).1.engines = c.engines ∧
      (drop env c fid target args).1.accumulator fid =
        (c.accumulator fid).map
          (fun r => Value.assign r target (.obj [("error", .str "engine not found")]))) ∧
    (∀ route payload signature root v t,
      env.parse payload = .ok root → root.isObject = true →
      (root.get "version" (.int 1)).asUInt = .ok v → c.protocol ≤ v →
      (root.get "token" (.str "")).asString = .ok t → t ≠ "" →
      (2 < v → env.verify payload signature t = none) →
      (root.get "action" (.str "push")).asString = .ok "drop" →
      (root.index "targets").isObject = true → (root.index "targets").size ≠ 0 →
      (root.index "targets").getMemberNames.Nodup →
      (∀ name ∈ (root.index "targets").getMemberNames,
        ((root.index "targets").index name).isObject = true) →
      (∀ name ∈ (root.index "targets").getMemberNames, c.engines.contains name = false) →
      (request env c route payload signature).2 = .normal ∧
      (request env c route payload signature).1.accumulator c.next_id =
        some ((root.index "targets").getMemberNames.map
          (fun name => (name, .obj [("error", .str "engine not found")]))) ∧
      (request env c route payload signature).1.expected c.next_id =
        some (root.index "targets").getMemberNames.length ∧
      c.next_id ∈ (request env c route payload signature).1.sealing ∧
      (request env c route payload signature).1.engines = c.engines ∧
      engine_calls (since c.trace.length (request env c route payload signature).1) = []) :=
  drop_unknown_engine_parts env c

theorem sample_env_never_raises (root stored : Value) (msg : String) :
    never_raises (sample_env root stored) msg := by
  simp [never_raises, sample_env]

/-- C6 amended, at concrete inputs: scenario S3 (version 0, minimum 2) is
answered with "outdated protocol version" alone, and a version 3 drop is not
answered with that message. -/
theorem request_outdated_version_witness :
    (0 < sample_core.protocol ∧
      (request (sample_env sample_old .null) sample_core ["client"] "payload" "").1.trace =
        sample_core.trace ++ [.fulfill sample_core.next_id "error"
          (.str "outdated protocol version")]) ∧
    (sample_core.protocol ≤ 3 ∧
      call.fulfill 0 "error" (.str "outdated protocol version") ∉
        since sample_core.trace.length
          (request (sample_env sample_drop .null) sample_core ["client"] "payload" "").1) :=
  ⟨⟨by decide,
    ((request_outdated_version (sample_env sample_old .null) sample_core ["client"] "payload"
      "" sample_old 0 rfl rfl rfl).1 (by decide) ⟨"T", rfl⟩).2.1⟩,
   ⟨by decide,
    (request_outdated_version (sample_env sample_drop .null) sample_core ["client"] "payload"
      "" sample_drop 3 rfl rfl rfl).2 (by decide) (sample_env_never_raises _ _ _) 0 "error"⟩⟩

/-- C7, at concrete inputs: scenario S4 (version 3, empty token) is answered
with "security token expected" alone, and a drop with token `T` is not
answered with that message. -/
theorem request_token_expected_witness :
    (sample_core.protocol ≤ 3 ∧
      (request (sample_env sample_no_token .null) sample_core ["client"] "payload" "").1.trace =
        sample_core.trace ++ [.fulfill sample_core.next_id "error"
          (.str "security token expected")]) ∧
    ("T" ≠ "" ∧
      call.fulfill 0 "error" (.str "security token expected") ∉
        since sample_core.trace.length
          (request (sample_env sample_drop .null) sample_core ["client"] "payload" "").1) :=
  ⟨⟨by decide,
    ((request_token_expected (sample_env sample_no_token .null) sample_core ["client"] "payload"
      "" sample_no_token rfl).1 3 rfl rfl (by decide) rfl).2.1⟩,
   ⟨by decide,
    (request_token_expected (sample_env sample_drop .null) sample_core ["client"] "payload"
      "" sample_drop rfl).2 "T" rfl (by decide) (sample_env_never_raises _ _ _) 0 "error"⟩⟩

/-- C8, at concrete inputs: the version 3 drop has its signature checked, the
version 2 statistics request has not and is dispatched, and a refused
signature of the version 3 drop leaves the part `error = "invalid signature"`
as the only call after the check. -/
theorem verify_iff_version_above_two_witness :
    (sample_core.protocol ≤ 3 ∧ "T" ≠ "" ∧
      call.verify "payload" "signature" "T" ∈ since sample_core.trace.length
        (request (sample_env sample_drop .null) sample_core ["client"] "payload"
          "signature").1) ∧
    (sample_core.protocol ≤ 2 ∧
      call.dispatch sample_core.next_id ∈ since sample_core.trace.length
        (request (sample_env sample_stats .null) sample_core ["client"] "payload"
          "signature").1) ∧
    (request (sample_env_refusing sample_drop) sample_core ["client"] "payload"
        "signature").1.trace =
      sample_core.trace ++ [.verify "payload" "signature" "T",
        .fulfill sample_core.next_id "error" (.str "invalid signature")] :=
  ⟨⟨by decide, by decide,
    (verify_iff_version_above_two (sample_env sample_drop .null) sample_core ["client"]
      "payload" "signature" sample_drop 3 "T" rfl rfl rfl rfl (by decide) (by decide)).1.mpr
      (by decide)⟩,
   ⟨by decide,
    (verify_iff_version_above_two (sample_env sample_stats .null) sample_core ["client"]
      "payload" "signature" sample_stats 2 "T" rfl rfl rfl rfl (by decide) (by decide)).2.2.1
      (Or.inl (by decide))⟩,
   ((verify_iff_version_above_two (sample_env_refusing sample_drop) sample_core ["client"]
      "payload" "signature" sample_drop 3 "T" rfl rfl rfl rfl (by decide) (by decide)).2.2.2
      "invalid signature" (by decide) rfl).2.1⟩

/-- C10, at the concrete input of scenario S6: the drop of `nope` yields the
accumulator mapping `nope` to "engine not found". -/
theorem drop_unknown_engine_witness :
    sample_core.engines.contains "nope" = false ∧
      (request (sample_env sample_drop .null) sample_core ["client"] "payload"
          "signature").1.accumulator sample_core.next_id =
        some [("nope", .obj [("error", .str "engine not found")])] :=
  ⟨rfl,
   ((drop_unknown_engine (sample_env sample_drop .null) sample_core).2 ["client"] "payload"
      "signature" sample_drop 3 "T" rfl rfl rfl (by decide) rfl (by decide) (fun _ => rfl) rfl
      rfl (by decide) (by decide) (by decide) (by decide)).2.1⟩

/-- C2 as stated fails: with one stored task, reload ends with the engine
`app` and one (recovery) future registered, while purge ends with both
registries empty and has not asked the persistence collaborator for the stored
tasks. -/
theorem purge_is_not_reload_counterexample :
    (reload (sample_env .null sample_stored) sample_core).1.engines = ["app"] ∧
      (reload (sample_env .null sample_stored) sample_core).1.futures.length = 1 ∧
      (purge sample_core).engines = [] ∧
      (purge sample_core).futures.length = 0 ∧
      (reload (sample_env .null sample_stored) sample_core).1.engines ≠
        (purge sample_core).engines ∧
      (purge sample_core).trace = [.storage_purge] := by
  refine ⟨rfl, rfl, rfl, rfl, ?_, rfl⟩
  decide

/-- C2, amended: purge clears all futures and all engines, as reload does,
and then instructs the persistence collaborator to purge its state; that is
its only call, recovery is not re-invoked, and both registries are empty
afterwards. Reload on the same state clears both registries and runs recovery;
its registries equal those after purge whenever the persistence collaborator
holds no stored task. -/
theorem purge_clears_without_recover (env : env_t) (c : core_t) :
    (purge c).futures = [] ∧ (purge c).engines = [] ∧
    (purge c).trace = c.trace ++ [.storage_purge] ∧
    (env.stored.size = 0 →
      (reload env c).2 = .normal ∧
      (reload env c).1.futures = (purge c).futures ∧
      (reload env c).1.engines = (purge c).engines ∧
      (reload env c).1.trace = c.trace ++ [.storage_all]) := by
  refine ⟨rfl, rfl, rfl, ?_⟩
  intro h
  simp [reload, recover, h, purge]

/-- C2 amended, at concrete inputs: with nothing stored, reload of the sample
core leaves the registries as purge does. -/
theorem purge_clears_without_recover_witness :
    (sample_env .null .null).stored.size = 0 ∧
      (reload (sample_env .null .null) sample_core).1.engines = (purge sample_core).engines :=
  ⟨rfl, ((purge_clears_without_recover (sample_env .null .null) sample_core).2.2.2 rfl).2.2.1⟩

theorem find_erase_first_self (fid : Nat) (fs : List future_t)
    (hd : (fs.map (fun f => f.id)).Nodup) :
    (erase_first fid fs).find? (fun f => decide (f.id = fid)) = none := by
  induction fs with
  | nil => rfl
  | cons f fs ih =>
    simp only [List.map_cons, List.nodup_cons] at hd
    unfold erase_first
    by_cases h : f.id = fid
    · simp only [h, if_true]
      rw [List.find?_eq_none]
      intro g hg hgid
      apply hd.1
      have hgid2 : g.id = fid := by simpa using hgid
      rw [h, ← hgid2]
      exact List.mem_map_of_mem _ hg
    · simp only [h, if_false, List.find?_cons, decide_False]
      exact ih hd.2

theorem find_erase_first_other (fid k : Nat) (hk : k ≠ fid) (fs : List future_t) :
    (erase_first fid fs).find? (fun f => decide (f.id = k)) =
      fs.find? (fun f => decide (f.id = k)) := by
  induction fs with
  | nil => rfl
  | cons f fs ih =>
    unfold erase_first
    by_cases h : f.id = fid
    · have hne : ¬ f.id = k := fun h2 => hk (h2.symm.trans h)
      simp only [h, if_true, List.find?_cons]
      rw [h] at hne
      simp only [hne, decide_False]
    · by_cases h2 : f.id = k
      · simp only [h, if_false, List.find?_cons]
        simp only [h2, decide_True]
      · simp only [h, if_false, List.find?_cons, h2, decide_False]
        exact ih

theorem erase_first_eq_filter (fid : Nat) (fs : List future_t)
    (hd : (fs.map (fun f => f.id)).Nodup) :
    erase_first fid fs = fs.filter (fun g => !decide (g.id = fid)) := by
  induction fs with
  | nil => rfl
  | cons f fs ih =>
    simp only [List.map_cons, List.nodup_cons] at hd
    unfold erase_first
    by_cases h : f.id = fid
    · have hfs : fs.filter (fun g => !decide (g.id = fid)) = fs := by
        apply List.filter_eq_self.mpr
        intro g hg
        have : g.id ≠ fid := by
          intro hgid
          apply hd.1
          rw [h, ← hgid]
          exact List.mem_map_of_mem _ hg
        simpa using this
      simp only [h, if_true, List.filter_cons, decide_True, Bool.not_true, Bool.false_eq_true,
        if_false]
      exact hfs.symm
    · simp only [h, if_false, List.filter_cons, decide_False, Bool.not_false, if_true]
      rw [ih hd.2]

theorem group_frames_more (xs : List frame) (rest : List (frame × Bool)) (cur : List frame) :
    group_frames (xs.map (fun x => (x, true)) ++ rest) cur = group_frames rest (cur ++ xs) := by
  induction xs generalizing cur with
  | nil => simp
  | cons x xs ih =>
    simp only [List.map_cons, List.cons_append]
    rw [group_frames, ih]
    simp [List.append_assoc]

theorem sent_frames_of_route (route : List String) :
    (route.map (fun id => call.send id true)).filterMap sent_frame =
      (route.map frame.bytes).map (fun x => (x, true)) := by
  induction route with
  | nil => rfl
  | cons r rs ih => simp [sent_frame, ih]

/-- The messages put on the socket by the calls of one seal along `route`. -/
theorem messages_of_response (route : List String) (root : List (String × Value)) :
    messages (route.map (fun id => call.send id true) ++
        [call.send "" true, call.send_json root]) =
      [route.map frame.bytes ++ [frame.bytes "", frame.json root]] := by
  have h : (route.map (fun id => call.send id true) ++
      [call.send "" true, call.send_json root]).filterMap sent_frame =
      (route.map frame.bytes).map (fun x => (x, true)) ++
        [(frame.bytes "", true), (frame.json root, false)] := by
    rw [List.filterMap_append, sent_frames_of_route]
    rfl
  unfold messages
  rw [h, group_frames_more]
  simp [group_frames]

/-- Registering a fresh future keeps the identities distinct, the supply being
above every registered identity. -/
theorem distinct_ids_new_future (c : core_t) (route : List String) (hd : distinct_ids c)
    (hlt : ∀ f ∈ c.futures, f.id < c.next_id) : distinct_ids (new_future c route).1 := by
  unfold distinct_ids new_future
  simp only [List.map_cons, List.nodup_cons]
  refine ⟨?_, hd⟩
  intro hmem
  obtain ⟨f, hf, hid⟩ := List.mem_map.mp hmem
  have := hlt f hf
  omega

/-- Sealing keeps the identities distinct. -/
theorem distinct_ids_seal (c : core_t) (fid : Nat) (hd : distinct_ids c) :
    distinct_ids (core_t.seal c fid) := by
  cases hf : c.find_future fid with
  | none =>
    have : core_t.seal c fid = c := by
      unfold core_t.seal
      simp only [hf]
    rw [this]
    exact hd
  | some f =>
    have hfut : (core_t.seal c fid).futures = erase_first fid c.futures := by
      unfold core_t.seal
      simp only [hf]
      split <;> rfl
    unfold distinct_ids at hd ⊢
    rw [hfut, erase_first_eq_filter fid c.futures hd]
    exact (List.filter_sublist _).map _ |>.nodup hd

/-- C11: for a future registered under `fid` (the identities of the registry
being distinct, as map keys are), `core_t::seal` makes no call when the route is
empty, and otherwise sends exactly one multipart message: the identity frames
of the route in their order, one empty delimiter frame, then one frame with
the serialized accumulator. In both cases the future is no longer registered
afterwards and the registry is otherwise what it was; the engine registry is
untouched. For an identity that is not registered, seal changes nothing and
sends nothing. -/
theorem seal_sends_one_message (c : core_t) (fid : Nat) (hd : distinct_ids c) :
    (∀ f, c.find_future fid = some f →
      (f.route = [] →
        (core_t.seal c fid).trace = c.trace ∧
        messages (since c.trace.length (core_t.seal c fid)) = []) ∧
      (f.route ≠ [] →
        (core_t.seal c fid).trace = c.trace ++
          (f.route.map (fun id => call.send id true) ++
            [call.send "" true, call.send_json f.root]) ∧
        messages (since c.trace.length (core_t.seal c fid)) =
          [f.route.map frame.bytes ++ [frame.bytes "", frame.json f.root]]) ∧
      (core_t.seal c fid).find_future fid = none ∧
      (∀ k, k ≠ fid → (core_t.seal c fid).find_future k = c.find_future k) ∧
      (core_t.seal c fid).futures = c.futures.filter (fun g => !decide (g.id = fid)) ∧
      (core_t.seal c fid).engines = c.engines) ∧
    (c.find_future fid = none →
      core_t.seal c fid = c ∧ messages (since c.trace.length (core_t.seal c fid)) = []) := by
  constructor
  · intro f hf
    have hseal : core_t.seal c fid =
        { (if f.route ≠ [] then
            c.emit (f.route.map (fun id => call.send id true) ++
              [call.send "" true, call.send_json f.root])
          else c) with
          futures := erase_first fid c.futures } := by
      unfold core_t.seal
      simp only [hf]
      split <;> rfl
    refine ⟨?_, ?_, ?_, ?_, ?_, ?_⟩
    · intro hr
      rw [hseal]
      simp [hr, since, messages, group_frames]
    · intro hr
      rw [hseal]
      simp only [hr, ne_eq, not_false_eq_true, if_true, emit_trace, since, List.drop_left,
        true_and]
      exact messages_of_response f.route f.root
    · rw [hseal]
      exact find_erase_first_self fid c.futures hd
    · intro k hk
      rw [hseal]
      exact find_erase_first_other fid k hk c.futures
    · rw [hseal]
      exact erase_first_eq_filter fid c.futures hd
    · rw [hseal]
      split <;> rfl
  · intro hnone
    have hseal : core_t.seal c fid = c := by
      unfold core_t.seal
      simp only [hnone]
    rw [hseal]
    exact ⟨rfl, by simp [since, messages, group_frames]⟩

/-- C11, at concrete inputs: sealing the sample future with route `client`,
`hop` sends the four frames of one message; afterwards it is not registered
and the recovery future still is. -/
theorem seal_sends_one_message_witness :
    distinct_ids sample_sealing_core ∧
      sample_sealing_core.find_future 4 = some sample_future ∧
      messages (since sample_sealing_core.trace.length (core_t.seal sample_sealing_core 4)) =
        [[.bytes "client", .bytes "hop", .bytes "", .json [("app", .str "done")]]] ∧
      (core_t.seal sample_sealing_core 4).find_future 4 = none :=
  ⟨by decide, rfl,
   ((seal_sends_one_message sample_sealing_core 4 (by decide)).1 sample_future rfl).2.1
     (by decide) |>.2,
   ((seal_sends_one_message sample_sealing_core 4 (by decide)).1 sample_future rfl).2.2.1⟩

theorem stat_engines_fields (env : env_t) (c : core_t) :
    (stat_engines env c).index "total" = .uint env.counters.engines_created ∧
      (stat_engines env c).index "alive" = .uint env.counters.engines_alive := by
  unfold stat_engines
  by_cases h : c.engines.isEmpty = true
  · simp only [h, if_true]
    exact ⟨rfl, rfl⟩
  · simp only [h, Bool.false_eq_true, if_false]
    exact ⟨rfl, rfl⟩

theorem stat_engines_congr (env : env_t) (c d : core_t) (h : d.engines = c.engines) :
    stat_engines env d = stat_engines env c := by
  unfold stat_engines
  rw [h]

@[simp]
theorem stat_engines_eq (env : env_t) (c : core_t) (fid : Nat) :
    (stat env c fid).engines = c.engines := by
  simp [stat]

/-- What `stat` leaves in a future whose accumulator was empty. -/
theorem stat_future (env : env_t) (c : core_t) (fid : Nat) (f : future_t)
    (hf : c.find_future fid = some f) (hroot : f.root = []) :
    (stat env c fid).accumulator fid =
      some [("engines", stat_engines env c),
            ("threads", .obj [("total", .uint env.counters.threads_created),
                              ("alive", .uint env.counters.threads_alive)]),
            ("requests", .obj [("total", .uint env.counters.futures_created),
                               ("pending", .uint env.counters.futures_alive)])] ∧
    (stat env c fid).expected fid = some 3 ∧
    fid ∈ (stat env c fid).sealing := by
  have h0 : (await (c.emit [.stat fid]) fid 3).find_future fid =
      some { f with expected := 3 } := by
    rw [find_future_await, find_future_emit, hf]
    rfl
  have hE : stat_engines env (await (c.emit [.stat fid]) fid 3) = stat_engines env c :=
    stat_engines_congr env c _ rfl
  have h1 : (fulfill (await (c.emit [.stat fid]) fid 3) fid "engines"
      (stat_engines env c)).find_future fid =
      some { f with expected := 3, root := [("engines", stat_engines env c)] } := by
    rw [find_future_fulfill, h0]
    simp [Value.assign, hroot]
  have h2 : (fulfill (fulfill (await (c.emit [.stat fid]) fid 3) fid "engines"
      (stat_engines env c)) fid "threads"
      (.obj [("total", .uint env.counters.threads_created),
             ("alive", .uint env.counters.threads_alive)])).find_future fid =
      some { f with expected := 3, root := [("engines", stat_engines env c),
        ("threads", .obj [("total", .uint env.counters.threads_created),
                          ("alive", .uint env.counters.threads_alive)])] } := by
    rw [find_future_fulfill, h1]
    simp [Value.assign]
  unfold stat
  simp only [hE]
  refine ⟨?_, ?_, ?_⟩
  · simp only [accumulator]
    rw [find_future_fulfill, h2]
    simp [Value.assign]
  · simp only [expected]
    rw [find_future_fulfill, h2]
    rfl
  · rw [fulfill_sealing _ _ _ _ _ h2]
    simp [Value.assign]

/-- C12: whatever the engine registry holds, `core_t::stat` sets the expected
count to 3 and fulfills exactly three parts, `engines`, `threads` and
`requests`, in this order and once each; `engines` and `threads` carry the
integers `total` and `alive`, `requests` the integers `total` and `pending`,
read from the class counters; the engine registry is unchanged and no engine
is constructed or called. Consequently a request that passes the checks and
has action `stats` ends with these three parts as its accumulator, expected
count 3, and is scheduled for seal. -/
theorem stat_three_parts (env : env_t) (c : core_t) :
    (∀ fid,
      (stat env c fid).trace = c.trace ++
        [.stat fid, .await fid 3,
         .fulfill fid "engines" (stat_engines env c),
         .fulfill fid "threads"
            (.obj [("total", .uint env.counters.threads_created),
                   ("alive", .uint env.counters.threads_alive)]),
         .fulfill fid "requests"
            (.obj [("total", .uint env.counters.futures_created),
                   ("pending", .uint env.counters.futures_alive)])] ∧
      (stat_engines env c).index "total" = .uint env.counters.engines_created ∧
      (stat_engines env c).index "alive" = .uint env.counters.engines_alive ∧
      (stat env c fid).engines = c.engines ∧
      engine_calls (since c.trace.length (stat env c fid)) = [] ∧
      ((c.find_future fid).isSome = true → (stat env c fid).expected fid = some 3)) ∧
    (∀ route payload signature root v t,
      env.parse payload = .ok root → root.isObject = true →
      (root.get "version" (.int 1)).asUInt = .ok v → c.protocol ≤ v →
      (root.get "token" (.str "")).asString = .ok t → t ≠ "" →
      (2 < v → env.verify payload signature t = none) →
      (root.get "action" (.str "push")).asString = .ok "stats" →
      (request env c route payload signature).2 = .normal ∧
      parts (since c.trace.length (request env c route payload signature).1) =
        [.fulfill c.next_id "engines" (stat_engines env c),
         .fulfill c.next_id "threads"
            (.obj [("total", .uint env.counters.threads_created),
                   ("alive", .uint env.counters.threads_alive)]),
         .fulfill c.next_id "requests"
            (.obj [("total", .uint env.counters.futures_created),
                   ("pending", .uint env.counters.futures_alive)])] ∧
      (request env c route payload signature).1.accumulator c.next_id =
        some [("engines", stat_engines env c),
              ("threads", .obj [("total", .uint env.counters.threads_created),
                                ("alive", .uint env.counters.threads_alive)]),
              ("requests", .obj [("total", .uint env.counters.futures_created),
                                 ("pending", .uint env.counters.futures_alive)])] ∧
      (request env c route payload signature).1.expected c.next_id = some 3 ∧
      c.next_id ∈ (request env c route payload signature).1.sealing ∧
      (request env c route payload signature).1.engines = c.engines ∧
      engine_calls (since c.trace.length (request env c route payload signature).1) = []) := by
  have htrace : ∀ (d : core_t) (fid : Nat), (stat env d fid).trace = d.trace ++
      [.stat fid, .await fid 3,
       .fulfill fid "engines" (stat_engines env d),
       .fulfill fid "threads"
          (.obj [("total", .uint env.counters.threads_created),
                 ("alive", .uint env.counters.threads_alive)]),
       .fulfill fid "requests"
          (.obj [("total", .uint env.counters.futures_created),
                 ("pending", .uint env.counters.futures_alive)])] := by
    intro d fid
    rw [stat_trace, stat_engines_congr env d (await (d.emit [.stat fid]) fid 3) rfl]
  constructor
  · intro fid
    refine ⟨htrace c fid, (stat_engines_fields env c).1, (stat_engines_fields env c).2,
      stat_engines_eq env c fid, ?_, ?_⟩
    · simp [since, htrace, engine_calls]
    · intro hsome
      obtain ⟨f, hf⟩ := Option.isSome_iff_exists.mp hsome
      unfold stat
      simp only [expected]
      rw [find_future_fulfill, find_future_fulfill, find_future_fulfill, find_future_await,
        find_future_emit, hf]
      rfl
  · intro route payload signature root v t hparse hobj hv hle ht hne hok haction
    rw [request_dispatches env c route payload signature root v t hparse hobj hv ht hle hne hok]
    dsimp only
    generalize hc3 : (if 2 < v then
        (set (set (new_future c route).1 c.next_id "protocol" (toString v))
          c.next_id "token" t).emit [.verify payload signature t]
      else set (set (new_future c route).1 c.next_id "protocol" (toString v))
          c.next_id "token" t) = c3
    have hc3f : ∃ f, c3.find_future c.next_id = some f ∧ f.root = [] := by
      subst hc3
      split
      · rw [find_future_emit, find_future_set, find_future_set, find_future_new]
        exact ⟨_, rfl, rfl⟩
      · rw [find_future_set, find_future_set, find_future_new]
        exact ⟨_, rfl, rfl⟩
    have hc3e : c3.engines = c.engines := by
      subst hc3
      split <;> rfl
    have hc3t : ∃ pre, c3.trace = c.trace ++ pre ∧ engine_calls pre = [] ∧ parts pre = [] := by
      subst hc3
      split
      · exact ⟨[.verify payload signature t], by simp, rfl, rfl⟩
      · exact ⟨[], by simp, rfl, rfl⟩
    obtain ⟨f, hf, hroot⟩ := hc3f
    obtain ⟨pre, hpre, hpree, hprep⟩ := hc3t
    have hd : dispatch env c3 c.next_id root =
        (stat env (c3.emit [.dispatch c.next_id]) c.next_id, .normal) := by
      unfold dispatch
      have h1 : ¬ ("stats" = "push" ∨ "stats" = "drop") := by decide
      simp only [haction, h1, if_false, if_true]
    have hE : stat_engines env (c3.emit [.dispatch c.next_id]) = stat_engines env c :=
      stat_engines_congr env c _ hc3e
    obtain ⟨ha, he, hs⟩ := stat_future env (c3.emit [.dispatch c.next_id]) c.next_id f
      (by rw [find_future_emit, hf]) hroot
    simp only [hd]
    refine ⟨trivial, ?_, ?_, he, hs, ?_, ?_⟩
    · simp only [since, htrace, emit_trace, hpre, List.append_assoc, List.drop_left, hE]
      simp only [parts, List.filter_append] at hprep ⊢
      simp [hprep]
    · rw [ha, hE]
    · rw [stat_engines_eq]
      simpa using hc3e
    · simp only [since, htrace, emit_trace, hpre, List.append_assoc, List.drop_left]
      simp only [engine_calls, List.filter_append] at hpree ⊢
      simp [hpree]

/-- C12, at a concrete input: the version 2 statistics request on the sample
core ends with expected count 3 and the three parts in order. -/
theorem stat_three_parts_witness :
    sample_core.protocol ≤ 2 ∧ "T" ≠ "" ∧
      (request (sample_env sample_stats .null) sample_core ["client"] "payload"
          "").1.expected sample_core.next_id = some 3 ∧
      ((request (sample_env sample_stats .null) sample_core ["client"] "payload"
          "").1.accumulator sample_core.next_id).map (fun r => r.map Prod.fst) =
        some ["engines", "threads", "requests"] :=
  ⟨by decide, by decide,
   ((stat_three_parts (sample_env sample_stats .null) sample_core).2 ["client"] "payload" ""
      sample_stats 2 "T" rfl rfl rfl (by decide) rfl (by decide)
      (fun h => absurd h (by decide)) rfl).2.2.2.1,
   by
    rw [((stat_three_parts (sample_env sample_stats .null) sample_core).2 ["client"] "payload"
      "" sample_stats 2 "T" rfl rfl rfl (by decide) rfl (by decide)
      (fun h => absurd h (by decide)) rfl).2.2.1]
    rfl⟩

theorem replay_append (fid : Nat) (l1 l2 : List call) (acc : List (String × Value)) :
    replay fid (l1 ++ l2) acc = replay fid l2 (replay fid l1 acc) := by
  induction l1 generalizing acc with
  | nil => rfl
  | cons x l1 ih =>
    cases x with
    | fulfill f part v =>
      simp only [List.cons_append, replay]
      split
      · exact ih _
      · exact ih _
    | _ => simpa [replay] using ih acc

theorem replay_no_parts (fid : Nat) (l : List call) (acc : List (String × Value))
    (h : parts l = []) : replay fid l acc = acc := by
  induction l generalizing acc with
  | nil => rfl
  | cons x l ih =>
    cases x with
    | fulfill f part v => simp [parts] at h
    | _ =>
      simp only [parts, List.filter_cons] at h
      simpa [replay] using ih acc (by simpa [parts] using h)

theorem tracks_refl (fid : Nat) (c : core_t) : tracks fid c c :=
  ⟨[], by simp, by simp [replay]⟩

theorem tracks_trans {fid : Nat} {c d e : core_t} (h1 : tracks fid c d) (h2 : tracks fid d e) :
    tracks fid c e := by
  obtain ⟨l1, e1, a1⟩ := h1
  obtain ⟨l2, e2, a2⟩ := h2
  refine ⟨l1 ++ l2, by rw [e2, e1, List.append_assoc], ?_⟩
  rw [a2, a1, Option.map_map]
  congr 1
  funext acc
  simp [replay_append]

theorem tracks_emit (fid : Nat) (c : core_t) (l : List call) (h : parts l = []) :
    tracks fid c (c.emit l) :=
  ⟨l, rfl, by
    rw [accumulator_emit]
    have : replay fid l = id := funext (fun acc => replay_no_parts fid l acc h)
    simp [this]⟩

theorem tracks_set (fid : Nat) (c : core_t) (k v : String) : tracks fid c (set c fid k v) :=
  ⟨[], by simp, by simp [accumulator_set, replay]⟩

theorem tracks_await (fid : Nat) (c : core_t) (n : Nat) : tracks fid c (await c fid n) :=
  ⟨[.await fid n], rfl, by
    rw [accumulator_await]
    have : replay fid [call.await fid n] = id := funext (fun acc => rfl)
    simp [this]⟩

theorem tracks_fulfill (fid : Nat) (c : core_t) (part : String) (v : Value) :
    tracks fid c (fulfill c fid part v) :=
  ⟨[.fulfill fid part v], fulfill_trace c fid part v, by
    rw [accumulator_fulfill]
    congr 1
    funext acc
    simp [replay]⟩

theorem tracks_engine_call (fid : Nat) (c : core_t) (ev : call) (r : Option String)
    (h : parts [ev] = []) : tracks fid c (engine_call c ev r).1 :=
  tracks_emit fid c [ev] h

theorem tracks_push (env : env_t) (c : core_t) (fid : Nat) (t : String) (a : Value) :
    tracks fid c (push env c fid t a).1 := by
  have h0 : tracks fid c (c.emit [.push fid t a]) := tracks_emit fid c _ rfl
  have h1 : tracks fid (c.emit [.push fid t a])
      ((c.emit [.push fid t a]).emit [.engine_new t]) := tracks_emit fid _ _ rfl
  unfold push
  simp only
  split
  · exact tracks_trans h0 (tracks_engine_call fid _ _ _ rfl)
  · split
    · refine tracks_trans h0 (tracks_trans h1 ?_)
      exact ⟨[.engine_push t fid a], rfl, by
        have : replay fid [call.engine_push t fid a] = id := funext (fun acc => rfl)
        simp [this, engine_call, accumulator, find_future]⟩
    · exact tracks_trans h0 (tracks_trans h1 (tracks_fulfill fid _ _ _))
    · exact tracks_trans h0 (tracks_trans h1 (tracks_emit fid _ _ rfl))

theorem tracks_drop (env : env_t) (c : core_t) (fid : Nat) (t : String) (a : Value) :
    tracks fid c (drop env c fid t a).1 := by
  have h0 : tracks fid c (c.emit [.drop fid t a]) := tracks_emit fid c _ rfl
  unfold drop
  simp only
  split
  · exact tracks_trans h0 (tracks_engine_call fid _ _ _ rfl)
  · exact tracks_trans h0 (tracks_fulfill fid _ _ _)

theorem tracks_stat (env : env_t) (c : core_t) (fid : Nat) : tracks fid c (stat env c fid) := by
  unfold stat
  exact tracks_trans (tracks_emit fid c [.stat fid] rfl)
    (tracks_trans (tracks_await fid _ 3)
      (tracks_trans (tracks_fulfill fid _ "engines" _)
        (tracks_trans (tracks_fulfill fid _ "threads" _) (tracks_fulfill fid _ "requests" _))))

theorem tracks_dispatch_loop (env : env_t) (action : String) (targets : Value) (fid : Nat)
    (names : List String) (c : core_t) :
    tracks fid c (dispatch_loop env action targets fid names c).1 := by
  induction names generalizing c with
  | nil => exact tracks_refl _ _
  | cons t rest ih =>
    unfold dispatch_loop
    simp only
    split
    · exact tracks_trans (tracks_fulfill fid c t _) (ih _)
    · have hstep : tracks fid c
          (if action = "push" then push env c fid t (targets.index t)
            else if action = "drop" then drop env c fid t (targets.index t)
            else (c, completion.normal)).1 := by
        split
        · exact tracks_push _ _ _ _ _
        · split
          · exact tracks_drop _ _ _ _ _
          · exact tracks_refl _ _
      split
      · exact tracks_trans hstep (ih _)
      · exact hstep

theorem tracks_dispatch (env : env_t) (c : core_t) (fid : Nat) (root : Value) :
    tracks fid c (dispatch env c fid root).1 := by
  have h0 : tracks fid c (c.emit [.dispatch fid]) := tracks_emit fid c _ rfl
  unfold dispatch
  simp only
  split
  · exact h0
  · split
    · split
      · exact h0
      · exact tracks_trans h0 (tracks_trans (tracks_await _ _ _)
          (tracks_dispatch_loop _ _ _ _ _ _))
    · split
      · exact tracks_trans h0 (tracks_stat _ _ _)
      · exact h0

theorem tracks_request_try (env : env_t) (c : core_t) (fid : Nat) (root : Value)
    (payload signature : String) :
    tracks fid c (request_try env c fid root payload signature).1 := by
  have hd : ∀ d : core_t, tracks fid d (dispatch env d fid root).1 := fun d =>
    tracks_dispatch env d fid root
  unfold request_try
  split
  · exact tracks_refl _ _
  · split
    · exact tracks_refl _ _
    · split
      · exact tracks_refl _ _
      · rename_i version _ token _
        split
        · split
          · split
            · split
              · exact tracks_trans (tracks_set fid c _ _)
                  (tracks_trans (tracks_set fid _ _ _) (tracks_emit fid _ _ rfl))
              · exact tracks_trans (tracks_set fid c _ _)
                  (tracks_trans (tracks_set fid _ _ _)
                    (tracks_trans (tracks_emit fid _ [.verify payload signature token] rfl)
                      (hd _)))
            · exact tracks_trans (tracks_set fid c _ _)
                (tracks_trans (tracks_set fid _ _ _) (hd _))
          · exact tracks_set fid c _ _
        · exact tracks_refl _ _

/-- No part is fulfilled by `dispatch` before it sets the expected count. -/
theorem dispatch_parts_after_await (env : env_t) (c : core_t) (fid : Nat) (root : Value) :
    ∃ l, (dispatch env c fid root).1.trace = c.trace ++ l ∧
      ((∀ n, call.await fid n ∉ l) → parts l = []) := by
  unfold dispatch
  simp only
  split
  · exact ⟨[.dispatch fid], rfl, fun _ => rfl⟩
  · split
    · split
      · exact ⟨[.dispatch fid], rfl, fun _ => rfl⟩
      · obtain ⟨l2, h2, -⟩ := appends_dispatch_loop env _ (root.index "targets") fid
          (root.index "targets").getMemberNames
          (await (c.emit [.dispatch fid]) fid (root.index "targets").getMemberNames.length)
        refine ⟨.dispatch fid :: .await fid (root.index "targets").getMemberNames.length :: l2,
          ?_, ?_⟩
        · rw [h2]
          simp [List.append_assoc]
        · intro hno
          exact absurd (by simp) (hno (root.index "targets").getMemberNames.length)
    · split
      · refine ⟨[.dispatch fid, .stat fid, .await fid 3,
          .fulfill fid "engines"
            (stat_engines env (await ((c.emit [.dispatch fid]).emit [.stat fid]) fid 3)),
          .fulfill fid "threads"
            (.obj [("total", .uint env.counters.threads_created),
                   ("alive", .uint env.counters.threads_alive)]),
          .fulfill fid "requests"
            (.obj [("total", .uint env.counters.futures_created),
                   ("pending", .uint env.counters.futures_alive)])], ?_, ?_⟩
        · show (stat env (c.emit [.dispatch fid]) fid).trace = _
          rw [stat_trace]
          simp [List.append_assoc]
        · intro hno
          exact absurd (by simp) (hno 3)
      · exact ⟨[.dispatch fid], rfl, fun _ => rfl⟩

/-- No part is fulfilled by the `try` block of `request` before the expected
count has been set. -/
theorem request_try_parts_after_await (env : env_t) (c : core_t) (fid : Nat) (root : Value)
    (payload signature : String) :
    ∃ l, (request_try env c fid root payload signature).1.trace = c.trace ++ l ∧
      ((∀ n, call.await fid n ∉ l) → parts l = []) := by
  have hd : ∀ (d : core_t) (pre : List call), d.trace = c.trace ++ pre → parts pre = [] →
      (∀ n, call.await fid n ∉ pre) →
      ∃ l, (dispatch env d fid root).1.trace = c.trace ++ l ∧
        ((∀ n, call.await fid n ∉ l) → parts l = []) := by
    intro d pre hpre hparts _
    obtain ⟨l, hl, hp⟩ := dispatch_parts_after_await env d fid root
    refine ⟨pre ++ l, by rw [hl, hpre, List.append_assoc], ?_⟩
    intro hno
    have hl2 : parts l = [] := hp (fun n hn => hno n (List.mem_append_right _ hn))
    simp only [parts, List.filter_append] at hparts hl2 ⊢
    simp [hparts, hl2]
  unfold request_try
  split
  · exact ⟨[], by simp, fun _ => rfl⟩
  · split
    · exact ⟨[], by simp, fun _ => rfl⟩
    · split
      · exact ⟨[], by simp, fun _ => rfl⟩
      · rename_i version _ token _
        split
        · split
          · split
            · split
              · exact ⟨[.verify payload signature token], by simp, fun _ => rfl⟩
              · exact hd _ [.verify payload signature token] (by simp) rfl (by simp)
            · exact hd _ [] (by simp) rfl (by simp)
          · exact ⟨[], by simp, fun _ => rfl⟩
        · exact ⟨[], by simp, fun _ => rfl⟩

theorem request_not_raised (env : env_t) (c : core_t) (route : List String)
    (payload signature : String) (w : String) :
    (request env c route payload signature).2 ≠ .raised w := by
  unfold request
  simp only
  split
  · simp
  · split
    · simp
    · rename_i hnot
      intro h
      exact hnot w h

/-- C13 as stated fails in two ways. First, with an engine whose `push`
raises, the push to `app` (arguments 7) and `bad` first fulfills the part
`app` and then catches "engine failure" raised by the handler of `bad`: the
exception does not escape, but the accumulator then holds two parts, not the
part `error` alone. Second, with an engine whose construction raises a
`std::runtime_error`, the push to `app` ends with the single part `app`
carrying `{error: "cannot start"}`: that exception is caught by `core_t::push`
itself and no part named `error` exists. -/
theorem catch_keeps_earlier_parts_counterexample :
    ((sample_mixed.index "targets").getMemberNames = ["app", "bad"] ∧
      (request_try (sample_env_raising sample_mixed) (new_future sample_core ["client"]).1 0
        sample_mixed "payload" "").2 = .raised "engine failure" ∧
      (request (sample_env_raising sample_mixed) sample_core ["client"] "payload" "").2 =
        .normal ∧
      (request (sample_env_raising sample_mixed) sample_core ["client"] "payload"
          "").1.accumulator 0 =
        some [("app", .obj [("error", .str "target arguments expected")]),
              ("error", .str "engine failure")] ∧
      ((request (sample_env_raising sample_mixed) sample_core ["client"] "payload"
          "").1.accumulator 0).map List.length = some 2) ∧
    ((sample_env_failing sample_start).engine_new "app" = .runtime_error "cannot start" ∧
      (request (sample_env_failing sample_start) sample_core ["client"] "payload" "").2 =
        .normal ∧
      (request (sample_env_failing sample_start) sample_core ["client"] "payload"
          "").1.accumulator 0 =
        some [("app", .obj [("error", .str "cannot start")])]) :=
  ⟨⟨rfl, rfl, rfl, rfl, rfl⟩, ⟨rfl, rfl, rfl⟩⟩

/-- C13, amended: no exception leaves the request handler. When the payload
parses and an exception with message `w` leaves the validation or
`dispatch`, the handler returns after exactly one more call, the fulfilment
of the part `error` with `w` on that request's future; the accumulator is
then the parts fulfilled before, with `error = w` assigned on top. It consists
of that one part alone whenever nothing was fulfilled before the exception,
which is the case whenever the expected count had not been set yet (every
validation failure, missing targets, unknown action). In particular a request
that passes the checks with an action other than push, drop and stats ends
with exactly the part `error = "unsupported action"`, and no engine is
touched. The exception of an engine constructor does not leave `dispatch`:
`core_t::push` turns a `std::runtime_error` into the part `{error: message}`
under the target's name and returns, and calls `abort()` on anything else. -/
theorem request_catches_exceptions (env : env_t) (c : core_t) (route : List String)
    (payload signature : String) :
    (∀ w, (request env c route payload signature).2 ≠ .raised w) ∧
    (∀ root w, env.parse payload = .ok root →
      (request_try env (new_future c route).1 c.next_id root payload signature).2 =
        .raised w →
      (request env c route payload signature).2 = .normal ∧
      ∃ l, since c.trace.length (request env c route payload signature).1 =
          l ++ [.fulfill c.next_id "error" (.str w)] ∧
        (∀ x ∈ l, plain_call x) ∧
        (request env c route payload signature).1.accumulator c.next_id =
          some (Value.assign (replay c.next_id l []) "error" (.str w)) ∧
        (parts l = [] →
          (request env c route payload signature).1.accumulator c.next_id =
            some [("error", .str w)]) ∧
        ((∀ n, call.await c.next_id n ∉ l) → parts l = [])) ∧
    (∀ root v t action, env.parse payload = .ok root → root.isObject = true →
      (root.get "version" (.int 1)).asUInt = .ok v → c.protocol ≤ v →
      (root.get "token" (.str "")).asString = .ok t → t ≠ "" →
      (2 < v → env.verify payload signature t = none) →
      (root.get "action" (.str "push")).asString = .ok action →
      action ≠ "push" → action ≠ "drop" → action ≠ "stats" →
      (request env c route payload signature).2 = .normal ∧
      parts (since c.trace.length (request env c route payload signature).1) =
        [.fulfill c.next_id "error" (.str "unsupported action")] ∧
      (request env c route payload signature).1.accumulator c.next_id =
        some [("error", .str "unsupported action")] ∧
      (request env c route payload signature).1.engines = c.engines ∧
      engine_calls (since c.trace.length (request env c route payload signature).1) = []) ∧
    (∀ fid target args, c.engines.contains target = false →
      (∀ what, env.engine_new target = .runtime_error what →
        (push env c fid target args).2 = .normal ∧
        (push env c fid target args).1.trace = c.trace ++
          [.push fid target args, .engine_new target,
           .fulfill fid target (.obj [("error", .str what)])] ∧
        (push env c fid target args).1.engines = c.engines) ∧
      (env.engine_new target = .other →
        (push env c fid target args).2 = .aborted ∧
        (push env c fid target args).1.trace = c.trace ++
          [.push fid target args, .engine_new target, .abort])) := by
  refine ⟨fun w => request_not_raised env c route payload signature w, ?_, ?_, ?_⟩
  rotate_left 2
  · intro fid target args hno
    constructor
    · intro what hwhat
      have hpush : push env c fid target args =
          (fulfill ((c.emit [.push fid target args]).emit [.engine_new target]) fid target
            (error_response what), .normal) := by
        unfold push
        simp only [emit_engines, hno, Bool.false_eq_true, if_false, hwhat]
      rw [hpush]
      exact ⟨rfl, by simp [List.append_assoc, error_response], by simp⟩
    · intro hother
      have hpush : push env c fid target args =
          (((c.emit [.push fid target args]).emit [.engine_new target]).emit [.abort],
            .aborted) := by
        unfold push
        simp only [emit_engines, hno, Bool.false_eq_true, if_false, hother]
      rw [hpush]
      exact ⟨rfl, by simp [List.append_assoc]⟩
  · intro root w hparse hraised
    have hreq : request env c route payload signature =
        (fulfill (request_try env (new_future c route).1 c.next_id root payload signature).1
          c.next_id "error" (.str w), .normal) := by
      unfold request
      simp only [hparse, new_future_id, hraised]
    obtain ⟨l, e1, p1⟩ := appends_request_try env (new_future c route).1 c.next_id root
      payload signature
    obtain ⟨l2, e2, a2⟩ := tracks_request_try env (new_future c route).1 c.next_id root
      payload signature
    obtain ⟨l3, e3, h3⟩ := request_try_parts_after_await env (new_future c route).1 c.next_id
      root payload signature
    have h12 : l = l2 := List.append_cancel_left (e1.symm.trans e2)
    have h13 : l = l3 := List.append_cancel_left (e1.symm.trans e3)
    subst h12 h13
    simp only [new_future_trace] at e1
    have hacc : (request env c route payload signature).1.accumulator c.next_id =
        some (Value.assign (replay c.next_id l []) "error" (.str w)) := by
      rw [hreq]
      simp only [accumulator_fulfill, a2, accumulator_new]
      rfl
    refine ⟨by rw [hreq], l, ?_, p1, hacc, ?_, h3⟩
    · rw [hreq]
      simp [since, e1]
    · intro hparts
      rw [hacc, replay_no_parts _ _ _ hparts]
      rfl
  · intro root v t action hparse hobj hv hle ht hne hok haction hpush hdrop hstats
    rw [request_dispatches env c route payload signature root v t hparse hobj hv ht hle hne hok]
    dsimp only
    generalize hc3 : (if 2 < v then
        (set (set (new_future c route).1 c.next_id "protocol" (toString v))
          c.next_id "token" t).emit [.verify payload signature t]
      else set (set (new_future c route).1 c.next_id "protocol" (toString v))
          c.next_id "token" t) = c3
    have hc3a : c3.accumulator c.next_id = some [] := by
      subst hc3
      split
      · rw [accumulator_emit, accumulator_set, accumulator_set, accumulator_new]
      · rw [accumulator_set, accumulator_set, accumulator_new]
    have hc3e : c3.engines = c.engines := by
      subst hc3
      split <;> rfl
    have hc3t : ∃ pre, c3.trace = c.trace ++ pre ∧ engine_calls pre = [] ∧ parts pre = [] := by
      subst hc3
      split
      · exact ⟨[.verify payload signature t], by simp, rfl, rfl⟩
      · exact ⟨[], by simp, rfl, rfl⟩
    obtain ⟨pre, hpre, hpree, hprep⟩ := hc3t
    have hd : dispatch env c3 c.next_id root =
        (c3.emit [.dispatch c.next_id], .raised "unsupported action") := by
      unfold dispatch
      have h1 : ¬ (action = "push" ∨ action = "drop") := by
        intro h
        rcases h with h | h
        · exact hpush h
        · exact hdrop h
      simp only [haction, h1, hstats, if_false]
    simp only [hd]
    refine ⟨trivial, ?_, ?_, ?_, ?_⟩
    · simp only [since, fulfill_trace, emit_trace, hpre, List.append_assoc, List.drop_left]
      simp only [parts, List.filter_append] at hprep ⊢
      simp [hprep]
    · rw [accumulator_fulfill, accumulator_emit, hc3a]
      rfl
    · simpa using hc3e
    · simp only [since, fulfill_trace, emit_trace, hpre, List.append_assoc, List.drop_left]
      simp only [engine_calls, List.filter_append] at hpree ⊢
      simp [hpree]

/-- C13 amended, at concrete inputs: the request with the unknown action
`restart` ends with the part `error = "unsupported action"` alone, and the
push whose engine raises ends normally. -/
theorem request_catches_exceptions_witness :
    (sample_core.protocol ≤ 2 ∧ "restart" ≠ "push" ∧
      (request (sample_env sample_unknown_action .null) sample_core ["client"] "payload"
          "").1.accumulator sample_core.next_id =
        some [("error", .str "unsupported action")]) ∧
    (request (sample_env_raising sample_mixed) sample_core ["client"] "payload" "").2 =
      .normal :=
  ⟨⟨by decide, by decide,
    ((request_catches_exceptions (sample_env sample_unknown_action .null) sample_core
      ["client"] "payload" "").2.2.1 sample_unknown_action 2 "T" "restart" rfl rfl rfl
      (by decide) rfl (by decide) (fun h => absurd h (by decide)) rfl (by decide) (by decide)
      (by decide)).2.2.1⟩,
   (((request_catches_exceptions (sample_env_raising sample_mixed) sample_core ["client"]
      "payload" "").2.1 sample_mixed "engine failure" rfl rfl).1)⟩

end core_t

end cocaine
